import Mathlib

/-!
# 3DChess: the rules engine of `chess.js`

A shallow embedding of the rules logic of `src/chess.js` (occupancy test, move
generator, check and checkmate evaluator, selection and pointer handler, reset)
followed by theorems about it.

## Conventions of the embedding

* Coordinates. The source stores board coordinates as the half-integers
  `-3.5, -2.5, ..., 3.5`. Every coordinate `c` is stored here doubled, as the
  integer `2 * c`: `-3.5` is `-7`, `3.5` is `7`, and a step of one square is `2`.
  Only the `x` and `z` components of a `Vector3` take part in the rules; the
  height `y` is dropped.
* Object identity. Pieces are JavaScript objects compared by reference
  (`pieces.includes`) and mutated in place (`piece.position = ...`). A `Piece`
  carries an `id` that stands for the reference, and an assignment to the
  position of an object rewrites every entry of the piece list with that `id`.
* Globals. The module-level variables `pieces`, `currentTurn`, `gameOver`,
  `selectedPiece`, `validMoves` and the text of the turn indicator form the
  record `GameState`; functions that read the global `pieces` take it as an
  argument.
-/

namespace Chess3D

/-- Colour tag, `"white"` or `"black"`: the only two values `createPiece` stores
in `metadata.color` (line 423) and the only two values of `currentTurn`. -/
inductive Color where
  | white
  | black
deriving DecidableEq, Repr

/-- The string the source uses for a colour tag. -/
def Color.name : Color → String
  | .white => "white"
  | .black => "black"

/-- The `x` and `z` components of a `BABYLON.Vector3`, doubled. -/
structure Vector3 where
  x : Int
  z : Int
deriving DecidableEq, Repr

/-- The record `piece.metadata`; `type` is the raw type tag. -/
structure Metadata where
  type : String
  color : Color
deriving DecidableEq, Repr

/-- A piece mesh: `id` stands for the object reference. -/
structure Piece where
  id : Nat
  metadata : Metadata
  position : Vector3
deriving DecidableEq, Repr

/-- The constant `boardSize` (line 31). -/
def boardSize : Nat := 8

/-- Lines 37-39: some piece of the global piece list stands exactly on `(x, z)`. -/
def isTileOccupied (pieces : List Piece) (x z : Int) : Bool :=
  pieces.any fun p => p.position.x == x && p.position.z == z

/-- The inner `for (let i = 1; i < boardSize; i++)` loop of the rook and bishop
cases (lines 80-96 and 135-151). The first argument counts the iterations that
are left (`boardSize - i`), the second is `i`. Both `break`s end the ray. -/
def rayLoop (pieces : List Piece) (position : Vector3) (dx dz : Int) : Nat → Nat → List Vector3
  | 0, _ => []
  | n + 1, i =>
    let targetX := position.x + 2 * (dx * (i : Int))
    let targetZ := position.z + 2 * (dz * (i : Int))
    if targetX < -7 ∨ targetX > 7 ∨ targetZ < -7 ∨ targetZ > 7 then []
    else if isTileOccupied pieces targetX targetZ then []
    else ⟨targetX, targetZ⟩ :: rayLoop pieces position dx dz n (i + 1)

/-- The table `directionsRook` (lines 73-78), as `(dx, dz)`. -/
def directionsRook : List (Int × Int) := [(1, 0), (-1, 0), (0, 1), (0, -1)]

/-- The table `directionsBishop` (lines 128-133), as `(dx, dz)`. -/
def directionsBishop : List (Int × Int) := [(1, 1), (1, -1), (-1, 1), (-1, -1)]

/-- The knight offsets (lines 102-111), as `(x, z)`. -/
def knightOffsets : List (Int × Int) :=
  [(2, 1), (2, -1), (-2, 1), (-2, -1), (1, 2), (1, -2), (-1, 2), (-1, -2)]

/-- The `directions.forEach` of the rook and bishop cases: one ray per direction,
pushed to `validMoves` in table order. -/
def slideMoves (pieces : List Piece) (position : Vector3) (bs : Nat)
    (directions : List (Int × Int)) : List Vector3 :=
  directions.flatMap fun d => rayLoop pieces position d.1 d.2 (bs - 1) 1

/-- One candidate of the knight and king cases (lines 114-122 and 168-176). -/
def stepMove (pieces : List Piece) (targetX targetZ : Int) : List Vector3 :=
  if targetX ≥ -7 ∧ targetX ≤ 7 ∧ targetZ ≥ -7 ∧ targetZ ≤ 7 ∧
      isTileOccupied pieces targetX targetZ = false then
    [⟨targetX, targetZ⟩]
  else []

/-- Lines 51-187. `pieces` is the global piece list that `isTileOccupied` reads
(the parameter `pieces` of the source is the same array at every call site); `bs`
is the parameter `boardSize`. The queen case calls `getValidMoves` on a rook and
on a bishop made from the same `position` and `color`; the two calls are written
out as the rook and bishop bodies. The `default` case only logs an error. -/
def getValidMoves (piece : Piece) (pieces : List Piece) (bs : Nat) : List Vector3 :=
  let position := piece.position
  if piece.metadata.type = "pawn" then
    let direction : Int := if piece.metadata.color = Color.white then -1 else 1
    let targetZ := position.z + 2 * direction
    if targetZ ≥ -7 ∧ targetZ ≤ 7 ∧ isTileOccupied pieces position.x targetZ = false then
      [⟨position.x, targetZ⟩]
    else []
  else if piece.metadata.type = "rook" then
    slideMoves pieces position bs directionsRook
  else if piece.metadata.type = "knight" then
    knightOffsets.flatMap fun o => stepMove pieces (position.x + 2 * o.1) (position.z + 2 * o.2)
  else if piece.metadata.type = "bishop" then
    slideMoves pieces position bs directionsBishop
  else if piece.metadata.type = "queen" then
    slideMoves pieces position bs directionsRook ++ slideMoves pieces position bs directionsBishop
  else if piece.metadata.type = "king" then
    [-1, 0, 1].flatMap fun (dx : Int) =>
      [-1, 0, 1].flatMap fun (dz : Int) =>
        if dx ≠ 0 ∨ dz ≠ 0 then stepMove pieces (position.x + 2 * dx) (position.z + 2 * dz)
        else []
  else []

/-- The messages that `getValidMoves` passes to `console.error`: the `default` case of
the switch (lines 182-183) reports the type tag; the six known cases report nothing
(the two inner calls of the queen case are a rook and a bishop). -/
def getValidMovesErrors (piece : Piece) : List String :=
  if piece.metadata.type = "pawn" then []
  else if piece.metadata.type = "rook" then []
  else if piece.metadata.type = "knight" then []
  else if piece.metadata.type = "bishop" then []
  else if piece.metadata.type = "queen" then []
  else if piece.metadata.type = "king" then []
  else ["Invalid piece type: " ++ piece.metadata.type]

/-- Modelled from the spec: `piece.intersectsMesh(king, false)` is a method of the
Babylon.js library, which is not part of the repository. Section 4.4 of the spec
reads it as exact equality of the two pieces' squares. -/
def intersectsMesh (piece king : Piece) : Bool :=
  piece.position.x == king.position.x && piece.position.z == king.position.z

/-- Lines 189-199: some piece of the other colour intersects the king. -/
def checkForCheck (king : Piece) (pieces : List Piece) : Bool :=
  pieces.any fun piece =>
    decide (piece.metadata.color ≠ king.metadata.color) && intersectsMesh piece king

/-- The assignment `obj.position = position` for the object with reference `id`,
seen through the piece list. -/
def assignPosition (pieces : List Piece) (id : Nat) (position : Vector3) : List Piece :=
  pieces.map fun p => if p.id = id then { p with position := position } else p

/-- What `checkForCheckmate` leaves behind: the returned boolean, the king object
and the piece list after the call. -/
structure CheckmateOutcome where
  result : Bool
  king : Piece
  pieces : List Piece
deriving DecidableEq, Repr

/-- The nine pairs `(x, z)` of the two nested loops of lines 208-209, in the order
the loops visit them. -/
def loopOffsets : List (Int × Int) :=
  [-1, 0, 1].flatMap fun (x : Int) => [-1, 0, 1].map fun (z : Int) => (x, z)

/-- The body of the nested loops of `checkForCheckmate` (lines 210-217) over the
offsets that are left. The king is moved in place, so the piece list that
`isTileOccupied` and `checkForCheck` read already holds the moved king. -/
def escapeLoop (originalPosition : Vector3) :
    List (Int × Int) → Piece → List Piece → CheckmateOutcome
  | [], king, pieces => ⟨true, king, pieces⟩
  | (x, z) :: rest, king, pieces =>
    if x ≠ 0 ∨ z ≠ 0 then
      let moved : Piece :=
        { king with position := ⟨originalPosition.x + 2 * x, originalPosition.z + 2 * z⟩ }
      let pieces1 := assignPosition pieces king.id moved.position
      if isTileOccupied pieces1 moved.position.x moved.position.z = false ∧
          checkForCheck moved pieces1 = false then
        ⟨false, { moved with position := originalPosition },
          assignPosition pieces1 king.id originalPosition⟩
      else
        escapeLoop originalPosition rest { moved with position := originalPosition }
          (assignPosition pieces1 king.id originalPosition)
    else escapeLoop originalPosition rest king pieces

/-- Lines 201-221, with the state it leaves. `pieces` is the global piece list:
the parameter `pieces` that `checkForCheck` receives and the global that
`isTileOccupied` reads are the same array at the only call site (line 579). -/
def checkForCheckmate (king : Piece) (pieces : List Piece) : CheckmateOutcome :=
  let originalPosition := king.position
  if checkForCheck king pieces = false then ⟨false, king, pieces⟩
  else escapeLoop originalPosition loopOffsets king pieces

/-- The module-level variables of `chess.js` (lines 11, 29, 32-34) and the text of
the turn indicator (`turnIndicator.innerText`). -/
structure GameState where
  pieces : List Piece
  currentTurn : Color
  gameOver : Bool
  selectedPiece : Option Piece
  validMoves : List Vector3
  turnIndicator : String
deriving DecidableEq, Repr

/-- Lines 42-48. The emissive colour of the material is rendering only. -/
def clearHighlights (s : GameState) : GameState :=
  { s with selectedPiece := none, validMoves := [] }

/-- Lines 296-298: `turnIndicator.innerText = message || "Current Turn: " + currentTurn`.
The default applies when `message` is `null` (`none`) or the empty string. -/
def updateTurnIndicator (message : Option String) (s : GameState) : GameState :=
  match message with
  | some m =>
    if m ≠ "" then { s with turnIndicator := m }
    else { s with turnIndicator := "Current Turn: " ++ s.currentTurn.name }
  | none => { s with turnIndicator := "Current Turn: " ++ s.currentTurn.name }

/-- Lines 343-428, on the piece list: a piece of a known type is pushed with its
type tag, its colour tag (the argument `color` is the light or the dark colour of
the current theme, line 423 turns it into the tag given here) and its position;
an unknown type pushes nothing. The new object gets a reference that is not in the
list yet. -/
def createPiece (type : String) (position : Vector3) (color : Color)
    (pieces : List Piece) : List Piece :=
  if type = "pawn" ∨ type = "rook" ∨ type = "knight" ∨ type = "bishop" ∨ type = "queen" ∨
      type = "king" then
    pieces ++ [⟨pieces.length, ⟨type, color⟩, position⟩]
  else pieces

/-- The pawn loop of `createPieces` (lines 437-448): iteration `i` and the ones
after it, the first argument counting the iterations left. The file of pawn `i`
is `i - boardSize / 2 + 0.5`. -/
def createPawns : Nat → Nat → List Piece → List Piece
  | 0, _, pieces => pieces
  | n + 1, i, pieces =>
    createPawns n (i + 1)
      (createPiece "pawn" ⟨2 * (i : Int) - (boardSize : Int) + 1, 5⟩ Color.black
        (createPiece "pawn" ⟨2 * (i : Int) - (boardSize : Int) + 1, -5⟩ Color.white pieces))

/-- Lines 430-539: the piece list is emptied and refilled with the starting
layout, in the order of the source. -/
def createPieces : List Piece :=
  let pieces : List Piece := []
  let pieces := createPawns boardSize 0 pieces
  let pieces := createPiece "rook" ⟨-7, -7⟩ Color.white pieces
  let pieces := createPiece "rook" ⟨7, -7⟩ Color.white pieces
  let pieces := createPiece "rook" ⟨-7, 7⟩ Color.black pieces
  let pieces := createPiece "rook" ⟨7, 7⟩ Color.black pieces
  let pieces := createPiece "knight" ⟨-5, -7⟩ Color.white pieces
  let pieces := createPiece "knight" ⟨5, -7⟩ Color.white pieces
  let pieces := createPiece "knight" ⟨-5, 7⟩ Color.black pieces
  let pieces := createPiece "knight" ⟨5, 7⟩ Color.black pieces
  let pieces := createPiece "bishop" ⟨-3, -7⟩ Color.white pieces
  let pieces := createPiece "bishop" ⟨3, -7⟩ Color.white pieces
  let pieces := createPiece "bishop" ⟨-3, 7⟩ Color.black pieces
  let pieces := createPiece "bishop" ⟨3, 7⟩ Color.black pieces
  let pieces := createPiece "queen" ⟨-1, -7⟩ Color.white pieces
  let pieces := createPiece "queen" ⟨-1, 7⟩ Color.black pieces
  let pieces := createPiece "king" ⟨1, -7⟩ Color.white pieces
  let pieces := createPiece "king" ⟨1, 7⟩ Color.black pieces
  pieces

/-- The handler `resetButton.onclick` (lines 313-319). -/
def reset (s : GameState) : GameState :=
  let s := { s with pieces := createPieces }
  let s := { s with currentTurn := Color.white }
  let s := { s with gameOver := false }
  let s := updateTurnIndicator none s
  clearHighlights s

/-- Lines 543-553. `pieces.includes(piece)` compares references; a `Piece` value
carries its reference, so the test is membership. -/
def selectPiece (piece : Piece) (s : GameState) : GameState :=
  if piece ∈ s.pieces ∧
      ((piece.metadata.color = Color.white ∧ s.currentTurn = Color.white) ∨
       (piece.metadata.color = Color.black ∧ s.currentTurn = Color.black)) then
    let s := clearHighlights s
    let s := { s with selectedPiece := some piece }
    { s with validMoves := getValidMoves piece s.pieces boardSize }
  else s

/-- A mesh of the scene that a pointer pick can report: a piece, or any other mesh
(a tile, a crown, ...) with its position. -/
inductive Mesh where
  | piece (p : Piece)
  | other (position : Vector3)
deriving DecidableEq, Repr

/-- The field `mesh.position`. -/
def Mesh.position : Mesh → Vector3
  | .piece p => p.position
  | .other position => position

/-- The test `pieces.includes(mesh)`. -/
def Mesh.isPieceOf : Mesh → List Piece → Bool
  | .piece p, pieces => decide (p ∈ pieces)
  | .other _, _ => false

/-- The argument of the pointer observer: a `POINTERPICK` event with its
`pickInfo.pickedMesh` (possibly `null`), or an event of any other type. -/
inductive PointerInfo where
  | pick (pickedMesh : Option Mesh)
  | otherType
deriving DecidableEq, Repr

/-- Lines 574-576: the first king of the piece list whose colour is not the colour
of the selected piece. -/
def findOpposingKing (selected : Piece) (pieces : List Piece) : Option Piece :=
  pieces.find? fun p =>
    decide (p.metadata.type = "king" ∧ p.metadata.color ≠ selected.metadata.color)

/-- Lines 571-590: the branch `moveIsValid` of the pointer handler, for the
selected piece and the picked position. -/
def applyMove (selected : Piece) (target : Vector3) (s : GameState) : GameState :=
  let s := { s with pieces := assignPosition s.pieces selected.id target,
                    selectedPiece := some { selected with position := target } }
  let opposingKing := findOpposingKing selected s.pieces
  let s :=
    match opposingKing with
    | some king =>
      if checkForCheck king s.pieces then
        let r := checkForCheckmate king s.pieces
        let s := { s with pieces := r.pieces }
        if r.result then
          let s := updateTurnIndicator (some ("Checkmate! " ++ s.currentTurn.name ++ " wins!")) s
          { s with gameOver := true }
        else
          updateTurnIndicator
            (some ((if s.currentTurn = Color.white then "Black" else "White") ++
              " king is in check!")) s
      else
        let s := { s with currentTurn :=
          if s.currentTurn = Color.white then Color.black else Color.white }
        updateTurnIndicator none s
    | none =>
      let s := { s with currentTurn :=
        if s.currentTurn = Color.white then Color.black else Color.white }
      updateTurnIndicator none s
  clearHighlights s

/-- Lines 571-590 once more, with the call `checkForCheckmate(opposingKing, pieces)`
of line 579 taken as the parameter `mate`: `applyMove` is this function at
`checkForCheckmate`. It lets the two branches of lines 579-584 be stated for either
answer of the checkmate test. -/
def applyMoveWith (mate : Piece → List Piece → CheckmateOutcome) (selected : Piece)
    (target : Vector3) (s : GameState) : GameState :=
  let s := { s with pieces := assignPosition s.pieces selected.id target,
                    selectedPiece := some { selected with position := target } }
  let opposingKing := findOpposingKing selected s.pieces
  let s :=
    match opposingKing with
    | some king =>
      if checkForCheck king s.pieces then
        let r := mate king s.pieces
        let s := { s with pieces := r.pieces }
        if r.result then
          let s := updateTurnIndicator (some ("Checkmate! " ++ s.currentTurn.name ++ " wins!")) s
          { s with gameOver := true }
        else
          updateTurnIndicator
            (some ((if s.currentTurn = Color.white then "Black" else "White") ++
              " king is in check!")) s
      else
        let s := { s with currentTurn :=
          if s.currentTurn = Color.white then Color.black else Color.white }
        updateTurnIndicator none s
    | none =>
      let s := { s with currentTurn :=
        if s.currentTurn = Color.white then Color.black else Color.white }
      updateTurnIndicator none s
  clearHighlights s

/-- Lines 555-598: the observer added to `scene.onPointerObservable`. -/
def onPointer (pointerInfo : PointerInfo) (s : GameState) : GameState :=
  if s.gameOver then s
  else
    match pointerInfo with
    | .pick (some pickedMesh) =>
      if pickedMesh.isPieceOf s.pieces then
        match pickedMesh with
        | .piece p => selectPiece p s
        | .other _ => s
      else
        match s.selectedPiece with
        | some selected =>
          let moveIsValid := s.validMoves.any fun vm =>
            vm.x == pickedMesh.position.x && vm.z == pickedMesh.position.z
          if moveIsValid then applyMove selected pickedMesh.position s
          else clearHighlights s
        | none => s
    | .pick none => s
    | .otherType => s

/-- The globals after the script has run: `createPieces()` at line 541, the
initial values of lines 11, 29, 33, 34 and the indicator text of line 293. -/
def initialState : GameState :=
  { pieces := createPieces, currentTurn := Color.white, gameOver := false,
    selectedPiece := none, validMoves := [], turnIndicator := "Current Turn: white" }

/-- The events of the game: a pointer event or a click on the reset button. -/
inductive Event where
  | pointer (pointerInfo : PointerInfo)
  | resetClick
deriving DecidableEq, Repr

/-- One event applied to the state. -/
def step (s : GameState) : Event → GameState
  | .pointer pointerInfo => onPointer pointerInfo s
  | .resetClick => reset s

/-- The states the game can be in: the state after a reset, and every state an
event leads to from there. -/
inductive Reachable : GameState → Prop where
  | afterReset (s : GameState) : Reachable (reset s)
  | afterEvent (s : GameState) (e : Event) : Reachable s → Reachable (step s e)

/-! ## Predicates used to state the theorems -/

/-- Both coordinates lie within `[-3.5, 3.5]` (doubled: within `[-7, 7]`). -/
def onBoard (x z : Int) : Prop := -7 ≤ x ∧ x ≤ 7 ∧ -7 ≤ z ∧ z ≤ 7

instance (x z : Int) : Decidable (onBoard x z) := by
  unfold onBoard; infer_instance

/-- Distinct entries of the piece list are distinct objects on distinct squares. -/
def WellPlaced (pieces : List Piece) : Prop :=
  pieces.Pairwise fun p q => p.id ≠ q.id ∧ p.position ≠ q.position

/-- The invariant of the game: the pieces are well placed and every stored legal
destination is a free square of the current piece list. -/
def Inv (s : GameState) : Prop :=
  WellPlaced s.pieces ∧ ∀ v ∈ s.validMoves, isTileOccupied s.pieces v.x v.z = false

/-- The squares of the pieces of one type and colour, in the order of the piece
list. -/
def squaresOf (type : String) (color : Color) (pieces : List Piece) : List Vector3 :=
  (pieces.filter fun p => decide (p.metadata.type = type ∧ p.metadata.color = color)).map
    fun p => p.position

/-- The entries of the piece list are distinct objects: no reference occurs twice. -/
def DistinctIds (pieces : List Piece) : Prop :=
  pieces.Pairwise fun p q => p.id ≠ q.id

/-- A board square: both coordinates are among `-3.5, -2.5, ..., 3.5` (doubled: odd
integers within `[-7, 7]`). -/
def isSquare (v : Vector3) : Prop := onBoard v.x v.z ∧ v.x % 2 = 1 ∧ v.z % 2 = 1

/-! ## Positions and states used as examples -/

/-- The white knight of the starting layout on `(-2.5, -3.5)`. -/
def startKnight : Piece := ⟨20, ⟨"knight", Color.white⟩, ⟨-5, -7⟩⟩

/-- A white rook on the corner `(-3.5, -3.5)`. -/
def cornerRook : Piece := ⟨0, ⟨"rook", Color.white⟩, ⟨-7, -7⟩⟩

/-- A black pawn on `(-3.5, -0.5)`, three squares up the file of `cornerRook`. -/
def filePawn : Piece := ⟨1, ⟨"pawn", Color.black⟩, ⟨-7, -1⟩⟩

/-- The game after a reset and a pick of the white knight on `(-2.5, -3.5)`. -/
def knightSelected : GameState :=
  step (reset initialState) (Event.pointer (PointerInfo.pick (some (Mesh.piece startKnight))))

/-- The game after a reset, a pick of the white knight on `(-2.5, -3.5)` and a pick
of the tile on `(-1.5, -1.5)`. -/
def afterKnightMove : GameState :=
  step knightSelected (Event.pointer (PointerInfo.pick (some (Mesh.other ⟨-3, -3⟩))))

/-- A white king on `(0.5, -3.5)`. -/
def whiteKing : Piece := ⟨0, ⟨"king", Color.white⟩, ⟨1, -7⟩⟩

/-- A black queen on `(0.5, -3.5)`, the square of `whiteKing`. -/
def blackQueen : Piece := ⟨1, ⟨"queen", Color.black⟩, ⟨1, -7⟩⟩

/-- A black pawn of the starting layout, on `(-3.5, 2.5)`. -/
def startBlackPawn : Piece := ⟨1, ⟨"pawn", Color.black⟩, ⟨-7, 5⟩⟩

/-- A white knight on `(0.5, 0.5)`. -/
def centreKnight : Piece := ⟨0, ⟨"knight", Color.white⟩, ⟨1, 1⟩⟩

/-- A white king on `(3.5, 3.5)`, a corner. -/
def cornerKing : Piece := ⟨0, ⟨"king", Color.white⟩, ⟨7, 7⟩⟩

/-- A white pawn on `(-3.5, -2.5)`, its square in the starting layout. -/
def startWhitePawn : Piece := ⟨0, ⟨"pawn", Color.white⟩, ⟨-7, -5⟩⟩

/-- A white queen on `(-0.5, -0.5)`. -/
def centreQueen : Piece := ⟨2, ⟨"queen", Color.white⟩, ⟨-1, -1⟩⟩

/-- A piece with a type tag the game does not know, standing on `(0.5, 0.5)`. -/
def strangePiece : Piece := ⟨40, ⟨"wizard", Color.white⟩, ⟨1, 1⟩⟩

/-- A checkmate test that always answers false and moves nothing. -/
def neverMate (king : Piece) (pieces : List Piece) : CheckmateOutcome :=
  ⟨false, king, pieces⟩

/-- A black queen on `(0.5, -2.5)`, one square in front of `whiteKing`. -/
def raider : Piece := ⟨1, ⟨"queen", Color.black⟩, ⟨1, -5⟩⟩

/-- A hand-made state on black's turn: `whiteKing` and `raider` on the board, `raider`
selected, and the square of the king stored as its only legal destination. -/
def raidState : GameState :=
  { pieces := [whiteKing, raider], currentTurn := Color.black, gameOver := false,
    selectedPiece := some raider, validMoves := [⟨1, -7⟩],
    turnIndicator := "Current Turn: black" }

/-- A white king on `(0.5, 0.5)`. -/
def boxedKing : Piece := ⟨0, ⟨"king", Color.white⟩, ⟨1, 1⟩⟩

/-- A black queen on `(0.5, 3.5)`. -/
def boxRaider : Piece := ⟨1, ⟨"queen", Color.black⟩, ⟨1, 7⟩⟩

/-- Eight white pawns on the eight squares around `boxedKing`. -/
def boxGuards : List Piece :=
  [⟨2, ⟨"pawn", Color.white⟩, ⟨-1, -1⟩⟩, ⟨3, ⟨"pawn", Color.white⟩, ⟨-1, 1⟩⟩,
    ⟨4, ⟨"pawn", Color.white⟩, ⟨-1, 3⟩⟩, ⟨5, ⟨"pawn", Color.white⟩, ⟨1, -1⟩⟩,
    ⟨6, ⟨"pawn", Color.white⟩, ⟨1, 3⟩⟩, ⟨7, ⟨"pawn", Color.white⟩, ⟨3, -1⟩⟩,
    ⟨8, ⟨"pawn", Color.white⟩, ⟨3, 1⟩⟩, ⟨9, ⟨"pawn", Color.white⟩, ⟨3, 3⟩⟩]

/-- A hand-made state in which the turn owner is white but the selected piece is the
black `boxRaider`, with the square of `boxedKing` stored as its only legal
destination; every square around the king is taken. -/
def boxedState : GameState :=
  { pieces := boxedKing :: boxRaider :: boxGuards, currentTurn := Color.white,
    gameOver := false, selectedPiece := some boxRaider, validMoves := [⟨1, 1⟩],
    turnIndicator := "Current Turn: white" }

/-! ## Occupancy -/

theorem isTileOccupied_eq_false_iff (pieces : List Piece) (x z : Int) :
    isTileOccupied pieces x z = false ↔ ∀ p ∈ pieces, p.position ≠ ⟨x, z⟩ := by
  unfold isTileOccupied
  rw [List.any_eq_false]
  constructor
  · intro h p hp hpos
    apply h p hp
    simp [hpos]
  · intro h p hp
    have := h p hp
    intro hc
    apply this
    simp only [Bool.and_eq_true, beq_iff_eq] at hc
    cases hq : p.position with
    | mk px pz =>
      rw [hq] at hc
      simp only at hc
      rw [hc.1, hc.2]

/-! ## Rays -/

theorem mem_rayLoop_iff (pieces : List Piece) (position : Vector3) (dx dz : Int) (v : Vector3) :
    ∀ (n i : Nat), v ∈ rayLoop pieces position dx dz n i ↔
      ∃ j : Nat, i ≤ j ∧ j < i + n ∧
        v = ⟨position.x + 2 * (dx * (j : Int)), position.z + 2 * (dz * (j : Int))⟩ ∧
        ∀ k : Nat, i ≤ k → k ≤ j →
          onBoard (position.x + 2 * (dx * (k : Int))) (position.z + 2 * (dz * (k : Int))) ∧
          isTileOccupied pieces (position.x + 2 * (dx * (k : Int)))
            (position.z + 2 * (dz * (k : Int))) = false := by
  intro n
  induction n with
  | zero =>
    intro i
    simp only [rayLoop, List.not_mem_nil, false_iff]
    rintro ⟨j, h1, h2, _⟩
    omega
  | succ n ih =>
    intro i
    unfold rayLoop
    simp only
    split_ifs with hb ho
    · simp only [List.not_mem_nil, false_iff]
      rintro ⟨j, h1, _, _, hfree⟩
      have := (hfree i (le_refl i) h1).1
      unfold onBoard at this
      omega
    · simp only [List.not_mem_nil, false_iff]
      rintro ⟨j, h1, _, _, hfree⟩
      have := (hfree i (le_refl i) h1).2
      rw [ho] at this
      exact Bool.noConfusion this
    · rw [List.mem_cons, ih (i + 1)]
      have hfi : onBoard (position.x + 2 * (dx * (i : Int))) (position.z + 2 * (dz * (i : Int))) ∧
          isTileOccupied pieces (position.x + 2 * (dx * (i : Int)))
            (position.z + 2 * (dz * (i : Int))) = false := by
        refine ⟨?_, by simpa using ho⟩
        unfold onBoard
        omega
      constructor
      · rintro (h | ⟨j, h1, h2, h3, h4⟩)
        · refine ⟨i, le_refl i, by omega, h, ?_⟩
          intro k hk1 hk2
          have : k = i := by omega
          subst this
          exact hfi
        · refine ⟨j, by omega, by omega, h3, ?_⟩
          intro k hk1 hk2
          rcases Nat.eq_or_lt_of_le hk1 with h | h
          · subst h; exact hfi
          · exact h4 k h hk2
      · rintro ⟨j, h1, h2, h3, h4⟩
        rcases Nat.eq_or_lt_of_le h1 with h | h
        · subst h; exact Or.inl h3
        · exact Or.inr ⟨j, h, by omega, h3, fun k hk1 hk2 => h4 k (by omega) hk2⟩

theorem mem_stepMove_iff (pieces : List Piece) (targetX targetZ : Int) (v : Vector3) :
    v ∈ stepMove pieces targetX targetZ ↔
      v = ⟨targetX, targetZ⟩ ∧ onBoard targetX targetZ ∧
        isTileOccupied pieces targetX targetZ = false := by
  unfold stepMove onBoard
  split_ifs with h
  · simp only [List.mem_singleton]
    constructor
    · intro hv
      exact ⟨hv, ⟨h.1, h.2.1, h.2.2.1, h.2.2.2.1⟩, h.2.2.2.2⟩
    · intro hv
      exact hv.1
  · simp only [List.not_mem_nil, false_iff]
    rintro ⟨_, h1, h2⟩
    exact h ⟨h1.1, h1.2.1, h1.2.2.1, h1.2.2.2, h2⟩

theorem mem_slideMoves_iff (pieces : List Piece) (position : Vector3) (bs : Nat)
    (directions : List (Int × Int)) (v : Vector3) :
    v ∈ slideMoves pieces position bs directions ↔
      ∃ d ∈ directions, v ∈ rayLoop pieces position d.1 d.2 (bs - 1) 1 := by
  unfold slideMoves
  exact List.mem_flatMap

/-- Every square of a ray is on the board, free, and a positive number of steps
away from the start. -/
theorem rayLoop_sound (pieces : List Piece) (position : Vector3) (dx dz : Int) (n : Nat)
    (v : Vector3) (hv : v ∈ rayLoop pieces position dx dz n 1) :
    onBoard v.x v.z ∧ isTileOccupied pieces v.x v.z = false ∧
      ∃ j : Nat, 1 ≤ j ∧ v = ⟨position.x + 2 * (dx * (j : Int)), position.z + 2 * (dz * (j : Int))⟩ := by
  rw [mem_rayLoop_iff] at hv
  obtain ⟨j, h1, _, h3, h4⟩ := hv
  have := h4 j h1 (le_refl j)
  subst h3
  exact ⟨this.1, this.2, j, h1, rfl⟩

theorem slideMoves_sound (pieces : List Piece) (position : Vector3) (bs : Nat)
    (directions : List (Int × Int)) (hd : ∀ d ∈ directions, d.1 ≠ 0 ∨ d.2 ≠ 0)
    (v : Vector3) (hv : v ∈ slideMoves pieces position bs directions) :
    onBoard v.x v.z ∧ isTileOccupied pieces v.x v.z = false ∧ v ≠ position := by
  rw [mem_slideMoves_iff] at hv
  obtain ⟨d, hdm, hray⟩ := hv
  obtain ⟨hb, ho, j, hj, hvj⟩ := rayLoop_sound pieces position d.1 d.2 (bs - 1) v hray
  refine ⟨hb, ho, ?_⟩
  intro heq
  rw [heq] at hvj
  have hx : position.x = position.x + 2 * (d.1 * (j : Int)) := congrArg Vector3.x hvj
  have hz : position.z = position.z + 2 * (d.2 * (j : Int)) := congrArg Vector3.z hvj
  have hj0 : (j : Int) ≠ 0 := by omega
  rcases hd d hdm with h | h
  · have : d.1 * (j : Int) = 0 := by omega
    rcases mul_eq_zero.mp this with h0 | h0
    · exact h h0
    · exact hj0 h0
  · have : d.2 * (j : Int) = 0 := by omega
    rcases mul_eq_zero.mp this with h0 | h0
    · exact h h0
    · exact hj0 h0

theorem directionsRook_ne_zero : ∀ d ∈ directionsRook, d.1 ≠ 0 ∨ d.2 ≠ 0 := by decide

theorem directionsBishop_ne_zero : ∀ d ∈ directionsBishop, d.1 ≠ 0 ∨ d.2 ≠ 0 := by decide

theorem knightOffsets_ne_zero : ∀ o ∈ knightOffsets, o.1 ≠ 0 ∨ o.2 ≠ 0 := by decide

/-- A destination of a single step to `(x + 2a, z + 2b)` with `(a, b) ≠ (0, 0)`. -/
theorem stepMove_sound (pieces : List Piece) (position : Vector3) (a b : Int)
    (hab : a ≠ 0 ∨ b ≠ 0) (v : Vector3)
    (hv : v ∈ stepMove pieces (position.x + 2 * a) (position.z + 2 * b)) :
    onBoard v.x v.z ∧ isTileOccupied pieces v.x v.z = false ∧ v ≠ position := by
  rw [mem_stepMove_iff] at hv
  obtain ⟨h1, h2, h3⟩ := hv
  subst h1
  refine ⟨h2, h3, ?_⟩
  intro heq
  have hx : position.x + 2 * a = position.x := congrArg Vector3.x heq
  have hz : position.z + 2 * b = position.z := congrArg Vector3.z heq
  omega

/-! ## The cases of `getValidMoves` -/

theorem getValidMoves_pawn (piece : Piece) (pieces : List Piece) (bs : Nat)
    (h : piece.metadata.type = "pawn") :
    getValidMoves piece pieces bs =
      if piece.position.z + 2 * (if piece.metadata.color = Color.white then -1 else 1) ≥ -7 ∧
          piece.position.z + 2 * (if piece.metadata.color = Color.white then -1 else 1) ≤ 7 ∧
          isTileOccupied pieces piece.position.x
            (piece.position.z + 2 * (if piece.metadata.color = Color.white then -1 else 1)) = false
      then [⟨piece.position.x,
        piece.position.z + 2 * (if piece.metadata.color = Color.white then -1 else 1)⟩]
      else [] := by
  unfold getValidMoves
  simp only [h, if_true]

theorem getValidMoves_rook (piece : Piece) (pieces : List Piece) (bs : Nat)
    (h : piece.metadata.type = "rook") :
    getValidMoves piece pieces bs = slideMoves pieces piece.position bs directionsRook := by
  unfold getValidMoves
  simp only [h]
  rfl

theorem getValidMoves_knight (piece : Piece) (pieces : List Piece) (bs : Nat)
    (h : piece.metadata.type = "knight") :
    getValidMoves piece pieces bs =
      knightOffsets.flatMap fun o =>
        stepMove pieces (piece.position.x + 2 * o.1) (piece.position.z + 2 * o.2) := by
  unfold getValidMoves
  simp only [h]
  rfl

theorem getValidMoves_bishop (piece : Piece) (pieces : List Piece) (bs : Nat)
    (h : piece.metadata.type = "bishop") :
    getValidMoves piece pieces bs = slideMoves pieces piece.position bs directionsBishop := by
  unfold getValidMoves
  simp only [h]
  rfl

theorem getValidMoves_queen (piece : Piece) (pieces : List Piece) (bs : Nat)
    (h : piece.metadata.type = "queen") :
    getValidMoves piece pieces bs =
      slideMoves pieces piece.position bs directionsRook ++
        slideMoves pieces piece.position bs directionsBishop := by
  unfold getValidMoves
  simp only [h]
  rfl

theorem getValidMoves_king (piece : Piece) (pieces : List Piece) (bs : Nat)
    (h : piece.metadata.type = "king") :
    getValidMoves piece pieces bs =
      [-1, 0, 1].flatMap fun (dx : Int) =>
        [-1, 0, 1].flatMap fun (dz : Int) =>
          if dx ≠ 0 ∨ dz ≠ 0 then
            stepMove pieces (piece.position.x + 2 * dx) (piece.position.z + 2 * dz)
          else [] := by
  unfold getValidMoves
  simp only [h]
  rfl

theorem getValidMoves_default (piece : Piece) (pieces : List Piece) (bs : Nat)
    (h1 : piece.metadata.type ≠ "pawn") (h2 : piece.metadata.type ≠ "rook")
    (h3 : piece.metadata.type ≠ "knight") (h4 : piece.metadata.type ≠ "bishop")
    (h5 : piece.metadata.type ≠ "queen") (h6 : piece.metadata.type ≠ "king") :
    getValidMoves piece pieces bs = [] := by
  unfold getValidMoves
  simp only [h1, h2, h3, h4, h5, h6, if_false]

/-! ## Soundness of the move generator -/

theorem getValidMoves_sound_aux (piece : Piece) (pieces : List Piece) (bs : Nat) (v : Vector3)
    (hv : v ∈ getValidMoves piece pieces bs) :
    (onBoard piece.position.x piece.position.z → onBoard v.x v.z) ∧
      isTileOccupied pieces v.x v.z = false ∧ v ≠ piece.position := by
  have weaken : ∀ {a b c : Prop}, a ∧ b ∧ c →
      (onBoard piece.position.x piece.position.z → a) ∧ b ∧ c :=
    fun h => ⟨fun _ => h.1, h.2⟩
  by_cases hp : piece.metadata.type = "pawn"
  · rw [getValidMoves_pawn piece pieces bs hp] at hv
    have hdir : (if piece.metadata.color = Color.white then (-1 : Int) else 1) = -1 ∨
        (if piece.metadata.color = Color.white then (-1 : Int) else 1) = 1 := by
      split_ifs
      · exact Or.inl rfl
      · exact Or.inr rfl
    generalize (if piece.metadata.color = Color.white then (-1 : Int) else 1) = dir at hv hdir
    split_ifs at hv with hfree
    · rw [List.mem_singleton] at hv
      subst hv
      refine ⟨?_, hfree.2.2, ?_⟩
      · intro hb
        unfold onBoard at hb ⊢
        simp only
        omega
      · intro heq
        have hz := congrArg Vector3.z heq
        simp only at hz
        omega
    · exact absurd hv (List.not_mem_nil v)
  by_cases hr : piece.metadata.type = "rook"
  · rw [getValidMoves_rook piece pieces bs hr] at hv
    exact weaken
      (slideMoves_sound pieces piece.position bs directionsRook directionsRook_ne_zero v hv)
  by_cases hk : piece.metadata.type = "knight"
  · rw [getValidMoves_knight piece pieces bs hk, List.mem_flatMap] at hv
    obtain ⟨o, ho, hvo⟩ := hv
    exact weaken
      (stepMove_sound pieces piece.position o.1 o.2 (knightOffsets_ne_zero o ho) v hvo)
  by_cases hbi : piece.metadata.type = "bishop"
  · rw [getValidMoves_bishop piece pieces bs hbi] at hv
    exact weaken
      (slideMoves_sound pieces piece.position bs directionsBishop directionsBishop_ne_zero v hv)
  by_cases hq : piece.metadata.type = "queen"
  · rw [getValidMoves_queen piece pieces bs hq, List.mem_append] at hv
    rcases hv with hv | hv
    · exact weaken
        (slideMoves_sound pieces piece.position bs directionsRook directionsRook_ne_zero v hv)
    · exact weaken
        (slideMoves_sound pieces piece.position bs directionsBishop directionsBishop_ne_zero v hv)
  by_cases hkg : piece.metadata.type = "king"
  · rw [getValidMoves_king piece pieces bs hkg, List.mem_flatMap] at hv
    obtain ⟨dx, _, hv⟩ := hv
    rw [List.mem_flatMap] at hv
    obtain ⟨dz, _, hv⟩ := hv
    split_ifs at hv with hne
    · exact weaken (stepMove_sound pieces piece.position dx dz hne v hv)
    · exact absurd hv (List.not_mem_nil v)
  · rw [getValidMoves_default piece pieces bs hp hr hk hbi hq hkg] at hv
    exact absurd hv (List.not_mem_nil v)

/-! ## Rays of the rook and the bishop -/

/-- Two rays of the rook that share a square are the same ray at the same step. -/
theorem directionsRook_unique :
    ∀ d ∈ directionsRook, ∀ e ∈ directionsRook, ∀ i j : Nat, 1 ≤ i → 1 ≤ j →
      d.1 * (i : Int) = e.1 * (j : Int) → d.2 * (i : Int) = e.2 * (j : Int) → d = e ∧ i = j := by
  intro d hd e he i j hi hj h1 h2
  simp only [directionsRook, List.mem_cons, List.mem_singleton, List.not_mem_nil, or_false] at hd he
  rcases hd with rfl | rfl | rfl | rfl <;> rcases he with rfl | rfl | rfl | rfl <;>
    simp only [Prod.mk.injEq] <;> simp only at h1 h2 <;>
    first | omega | exact ⟨trivial, by omega⟩

/-- Two rays of the bishop that share a square are the same ray at the same step. -/
theorem directionsBishop_unique :
    ∀ d ∈ directionsBishop, ∀ e ∈ directionsBishop, ∀ i j : Nat, 1 ≤ i → 1 ≤ j →
      d.1 * (i : Int) = e.1 * (j : Int) → d.2 * (i : Int) = e.2 * (j : Int) → d = e ∧ i = j := by
  intro d hd e he i j hi hj h1 h2
  simp only [directionsBishop, List.mem_cons, List.mem_singleton, List.not_mem_nil, or_false]
    at hd he
  rcases hd with rfl | rfl | rfl | rfl <;> rcases he with rfl | rfl | rfl | rfl <;>
    simp only [Prod.mk.injEq] <;> simp only at h1 h2 <;>
    first | omega | exact ⟨trivial, by omega⟩

/-- The square at step `i` of direction `d` is among the sliding moves exactly when
the steps `1..i` of that direction are all on the board and free. -/
theorem slideMoves_step_iff (pieces : List Piece) (position : Vector3) (bs : Nat)
    (directions : List (Int × Int))
    (huniq : ∀ d ∈ directions, ∀ e ∈ directions, ∀ i j : Nat, 1 ≤ i → 1 ≤ j →
      d.1 * (i : Int) = e.1 * (j : Int) → d.2 * (i : Int) = e.2 * (j : Int) → d = e ∧ i = j)
    (d : Int × Int) (hd : d ∈ directions) (i : Nat) (hi : 1 ≤ i) (hib : i < bs) :
    (⟨position.x + 2 * (d.1 * (i : Int)), position.z + 2 * (d.2 * (i : Int))⟩ : Vector3) ∈
        slideMoves pieces position bs directions ↔
      ∀ k : Nat, 1 ≤ k → k ≤ i →
        onBoard (position.x + 2 * (d.1 * (k : Int))) (position.z + 2 * (d.2 * (k : Int))) ∧
        isTileOccupied pieces (position.x + 2 * (d.1 * (k : Int)))
          (position.z + 2 * (d.2 * (k : Int))) = false := by
  rw [mem_slideMoves_iff]
  constructor
  · rintro ⟨e, he, hray⟩
    rw [mem_rayLoop_iff] at hray
    obtain ⟨j, hj, _, hv, hfree⟩ := hray
    have hx := congrArg Vector3.x hv
    have hz := congrArg Vector3.z hv
    simp only at hx hz
    obtain ⟨hde, hij⟩ := huniq d hd e he i j hi hj (by omega) (by omega)
    subst hde
    subst hij
    exact hfree
  · intro hfree
    exact ⟨d, hd, (mem_rayLoop_iff pieces position d.1 d.2 _ (bs - 1) 1).2
      ⟨i, hi, by omega, rfl, hfree⟩⟩

/-! ## The checkmate evaluator -/

theorem assignPosition_assignPosition (pieces : List Piece) (id : Nat) (a b : Vector3) :
    assignPosition (assignPosition pieces id a) id b = assignPosition pieces id b := by
  unfold assignPosition
  rw [List.map_map]
  apply List.map_congr_left
  intro p _
  simp only [Function.comp]
  split_ifs with h
  · rfl
  · rfl

/-- Writing to an object the position it already has changes nothing. -/
theorem assignPosition_same (pieces : List Piece) (id : Nat) (a : Vector3)
    (h : ∀ p ∈ pieces, p.id = id → p.position = a) : assignPosition pieces id a = pieces := by
  unfold assignPosition
  conv_rhs => rw [← List.map_id pieces]
  apply List.map_congr_left
  intro p hp
  split_ifs with hid
  · have := h p hp hid
    cases p with
    | mk pid m pos =>
      simp only at this
      simp only [id_eq, this]
  · rfl

/-- The escape search leaves the king and the piece list as it found them. -/
theorem escapeLoop_restores (originalPosition : Vector3) (offsets : List (Int × Int))
    (king : Piece) (pieces : List Piece) (hk : king.position = originalPosition)
    (h : ∀ p ∈ pieces, p.id = king.id → p.position = originalPosition) :
    (escapeLoop originalPosition offsets king pieces).king = king ∧
      (escapeLoop originalPosition offsets king pieces).pieces = pieces := by
  have hking : ∀ a : Vector3,
      ({ ({ king with position := a } : Piece) with position := originalPosition } : Piece) = king := by
    intro a
    cases king with
    | mk kid m pos =>
      simp only at hk
      simp only [hk]
  have hpieces : ∀ a : Vector3,
      assignPosition (assignPosition pieces king.id a) king.id originalPosition = pieces := by
    intro a
    rw [assignPosition_assignPosition]
    exact assignPosition_same pieces king.id originalPosition h
  induction offsets with
  | nil => exact ⟨rfl, rfl⟩
  | cons o rest ih =>
    obtain ⟨x, z⟩ := o
    unfold escapeLoop
    simp only
    split_ifs with hne hesc
    · exact ⟨hking _, hpieces _⟩
    · rw [hking, hpieces]
      exact ih
    · exact ih

theorem checkForCheckmate_restores_aux (king : Piece) (pieces : List Piece)
    (h : ∀ p ∈ pieces, p.id = king.id → p.position = king.position) :
    (checkForCheckmate king pieces).king = king ∧
      (checkForCheckmate king pieces).pieces = pieces := by
  unfold checkForCheckmate
  simp only
  split_ifs with hc
  · exact ⟨rfl, rfl⟩
  · exact escapeLoop_restores king.position loopOffsets king pieces rfl h

/-- With the king in the piece list, the square the king was moved to is occupied:
by the king itself. -/
theorem isTileOccupied_assignPosition_self (pieces : List Piece) (king : Piece)
    (hk : king ∈ pieces) (a : Vector3) :
    isTileOccupied (assignPosition pieces king.id a) a.x a.z = true := by
  unfold isTileOccupied assignPosition
  rw [List.any_eq_true]
  refine ⟨{ king with position := a }, ?_, by simp⟩
  rw [List.mem_map]
  exact ⟨king, hk, by simp⟩

/-- With the king in the piece list, the escape search accepts no square. -/
theorem escapeLoop_result_of_mem (originalPosition : Vector3) (offsets : List (Int × Int))
    (king : Piece) (pieces : List Piece) (hk : king ∈ pieces)
    (hpos : king.position = originalPosition)
    (h : ∀ p ∈ pieces, p.id = king.id → p.position = originalPosition) :
    (escapeLoop originalPosition offsets king pieces).result = true := by
  induction offsets with
  | nil => rfl
  | cons o rest ih =>
    obtain ⟨x, z⟩ := o
    unfold escapeLoop
    simp only
    have hocc := isTileOccupied_assignPosition_self pieces king hk
      ⟨originalPosition.x + 2 * x, originalPosition.z + 2 * z⟩
    simp only at hocc
    split_ifs with hne hesc
    · rw [hocc] at hesc
      exact absurd hesc.1 (by decide)
    · have hking : ({ ({ king with position :=
          ⟨originalPosition.x + 2 * x, originalPosition.z + 2 * z⟩ } : Piece) with
          position := originalPosition } : Piece) = king := by
        cases king with
        | mk kid m pos =>
          simp only at hpos
          simp only [hpos]
      rw [hking, assignPosition_assignPosition,
        assignPosition_same pieces king.id originalPosition h]
      exact ih
    · exact ih

/-! ## The game state machine -/

theorem wellPlaced_createPieces : WellPlaced createPieces := by
  unfold WellPlaced
  decide

theorem wellPlaced_same_id (pieces : List Piece) (hw : WellPlaced pieces) (king : Piece)
    (hk : king ∈ pieces) : ∀ p ∈ pieces, p.id = king.id → p.position = king.position := by
  intro p hp hid
  by_contra hne
  have hpk : p ≠ king := fun h => hne (by rw [h])
  have hsymm : Symmetric fun p q : Piece => p.id ≠ q.id ∧ p.position ≠ q.position :=
    fun a b h => ⟨fun e => h.1 e.symm, fun e => h.2 e.symm⟩
  exact (List.Pairwise.forall hsymm hw hp hk hpk).1 hid

theorem wellPlaced_assignPosition (pieces : List Piece) (id : Nat) (t : Vector3)
    (hw : WellPlaced pieces) (hfree : ∀ p ∈ pieces, p.position ≠ t) :
    WellPlaced (assignPosition pieces id t) := by
  unfold WellPlaced assignPosition at *
  induction pieces with
  | nil => exact List.Pairwise.nil
  | cons p ps ih =>
    rw [List.pairwise_cons] at hw
    rw [List.map_cons, List.pairwise_cons]
    refine ⟨?_, ih hw.2 (fun q hq => hfree q (List.mem_cons_of_mem p hq))⟩
    intro q' hq'
    rw [List.mem_map] at hq'
    obtain ⟨q, hq, rfl⟩ := hq'
    have hpq := hw.1 q hq
    have hpt := hfree p (List.mem_cons_self p ps)
    have hqt := hfree q (List.mem_cons_of_mem p hq)
    by_cases h1 : p.id = id <;> by_cases h2 : q.id = id
    · exact absurd (h1.trans h2.symm) hpq.1
    · simp only [h1, h2, if_true, if_false]
      exact ⟨by rw [← h1]; exact hpq.1, fun e => hqt e.symm⟩
    · simp only [h1, h2, if_true, if_false]
      exact ⟨by rw [← h2]; exact hpq.1, hpt⟩
    · simp only [h1, h2, if_false]
      exact hpq

theorem clearHighlights_pieces (s : GameState) : (clearHighlights s).pieces = s.pieces := rfl

theorem updateTurnIndicator_pieces (message : Option String) (s : GameState) :
    (updateTurnIndicator message s).pieces = s.pieces := by
  cases message with
  | none => rfl
  | some m =>
    unfold updateTurnIndicator
    simp only
    split_ifs <;> rfl

theorem updateTurnIndicator_some (m : String) (s : GameState) (h : m ≠ "") :
    updateTurnIndicator (some m) s = { s with turnIndicator := m } := by
  unfold updateTurnIndicator
  simp only [h, ne_eq, not_false_eq_true, if_true]

theorem checkmate_message_ne_empty (c : Color) : "Checkmate! " ++ c.name ++ " wins!" ≠ "" := by
  cases c <;> decide

theorem check_message_ne_empty (c : Color) :
    (if c = Color.white then "Black" else "White") ++ " king is in check!" ≠ "" := by
  cases c <;> decide

/-- The move branch of the handler: what it leaves in the state, whatever the
outcome of the check tests. -/
theorem applyMove_frame (selected : Piece) (target : Vector3) (s : GameState)
    (hw : WellPlaced (assignPosition s.pieces selected.id target)) :
    (applyMove selected target s).pieces = assignPosition s.pieces selected.id target ∧
      (applyMove selected target s).selectedPiece = none ∧
      (applyMove selected target s).validMoves = [] := by
  refine ⟨?_, rfl, rfl⟩
  unfold applyMove
  simp only [clearHighlights_pieces]
  split
  · rename_i king hfind
    have hmem : king ∈ assignPosition s.pieces selected.id target :=
      List.mem_of_find?_eq_some hfind
    have hrest := checkForCheckmate_restores_aux king _
      (wellPlaced_same_id _ hw king hmem)
    by_cases hc : checkForCheck king (assignPosition s.pieces selected.id target) = true
    · rw [if_pos hc]
      by_cases hm : (checkForCheckmate king (assignPosition s.pieces selected.id target)).result
          = true
      · rw [if_pos hm]
        exact hrest.2
      · rw [if_neg hm, updateTurnIndicator_pieces]
        exact hrest.2
    · rw [if_neg hc, updateTurnIndicator_pieces]
  · simp only [updateTurnIndicator_pieces]

/-- The test `moveIsValid` of the handler is membership of the picked position in
`validMoves`. -/
theorem moveIsValid_iff (validMoves : List Vector3) (t : Vector3) :
    (validMoves.any fun vm => vm.x == t.x && vm.z == t.z) = true ↔ t ∈ validMoves := by
  rw [List.any_eq_true]
  constructor
  · rintro ⟨vm, hvm, h⟩
    simp only [Bool.and_eq_true, beq_iff_eq] at h
    have : vm = t := by
      cases vm; cases t
      simp only at h
      simp only [Vector3.mk.injEq]
      exact h
    exact this ▸ hvm
  · intro h
    exact ⟨t, h, by simp⟩

theorem inv_reset (s : GameState) : Inv (reset s) := by
  refine ⟨wellPlaced_createPieces, ?_⟩
  intro v hv
  exact absurd hv (List.not_mem_nil v)

theorem inv_clearHighlights (s : GameState) (h : Inv s) : Inv (clearHighlights s) := by
  refine ⟨h.1, ?_⟩
  intro v hv
  exact absurd hv (List.not_mem_nil v)

theorem inv_selectPiece (piece : Piece) (s : GameState) (h : Inv s) :
    Inv (selectPiece piece s) := by
  unfold selectPiece
  split_ifs with hc
  · refine ⟨h.1, ?_⟩
    intro v hv
    exact (getValidMoves_sound_aux piece s.pieces boardSize v hv).2.1
  · exact h

theorem inv_applyMove (selected : Piece) (target : Vector3) (s : GameState) (h : Inv s)
    (ht : target ∈ s.validMoves) : Inv (applyMove selected target s) := by
  have hfree : ∀ p ∈ s.pieces, p.position ≠ target := by
    have := (isTileOccupied_eq_false_iff s.pieces target.x target.z).1 (h.2 target ht)
    intro p hp
    exact this p hp
  have hw := wellPlaced_assignPosition s.pieces selected.id target h.1 hfree
  obtain ⟨hp, _, hv⟩ := applyMove_frame selected target s hw
  refine ⟨?_, ?_⟩
  · rw [hp]
    exact hw
  · rw [hv]
    intro v hv
    exact absurd hv (List.not_mem_nil v)

theorem inv_onPointer (pointerInfo : PointerInfo) (s : GameState) (h : Inv s) :
    Inv (onPointer pointerInfo s) := by
  unfold onPointer
  split_ifs with hg
  · exact h
  · split
    · rename_i pickedMesh
      split_ifs with hp
      · cases pickedMesh with
        | piece p => exact inv_selectPiece p s h
        | other position => exact h
      · split
        · rename_i selected hsel
          simp only
          split_ifs with hvalid
          · exact inv_applyMove selected pickedMesh.position s h
              ((moveIsValid_iff s.validMoves pickedMesh.position).1 hvalid)
          · exact inv_clearHighlights s h
        · exact h
    · exact h
    · exact h

theorem inv_step (s : GameState) (e : Event) (h : Inv s) : Inv (step s e) := by
  cases e with
  | pointer pointerInfo => exact inv_onPointer pointerInfo s h
  | resetClick => exact inv_reset s

theorem inv_of_reachable (s : GameState) (h : Reachable s) : Inv s := by
  induction h with
  | afterReset s => exact inv_reset s
  | afterEvent s e _ ih => exact inv_step s e ih

/-! ## The pointer handler on a picked mesh that is not a piece -/

theorem onPointer_legal_target (s : GameState) (selected : Piece) (pickedMesh : Mesh)
    (hg : s.gameOver = false) (hs : s.selectedPiece = some selected)
    (hm : pickedMesh.isPieceOf s.pieces = false) (ht : pickedMesh.position ∈ s.validMoves) :
    onPointer (PointerInfo.pick (some pickedMesh)) s = applyMove selected pickedMesh.position s := by
  unfold onPointer
  simp only [hg, hm, hs, Bool.false_eq_true, if_false]
  rw [if_pos ((moveIsValid_iff s.validMoves pickedMesh.position).2 ht)]

theorem onPointer_illegal_target (s : GameState) (selected : Piece) (pickedMesh : Mesh)
    (hg : s.gameOver = false) (hs : s.selectedPiece = some selected)
    (hm : pickedMesh.isPieceOf s.pieces = false) (ht : pickedMesh.position ∉ s.validMoves) :
    onPointer (PointerInfo.pick (some pickedMesh)) s = clearHighlights s := by
  unfold onPointer
  simp only [hg, hm, hs, Bool.false_eq_true, if_false]
  rw [if_neg (fun h => ht ((moveIsValid_iff s.validMoves pickedMesh.position).1 h))]

theorem applyMove_no_king (selected : Piece) (target : Vector3) (s : GameState)
    (h : findOpposingKing selected (assignPosition s.pieces selected.id target) = none) :
    applyMove selected target s =
      { pieces := assignPosition s.pieces selected.id target,
        currentTurn := if s.currentTurn = Color.white then Color.black else Color.white,
        gameOver := s.gameOver, selectedPiece := none, validMoves := [],
        turnIndicator := "Current Turn: " ++
          (if s.currentTurn = Color.white then Color.black else Color.white).name } := by
  unfold applyMove
  simp only [h]
  rfl

theorem applyMove_no_check (selected : Piece) (target : Vector3) (s : GameState) (king : Piece)
    (h : findOpposingKing selected (assignPosition s.pieces selected.id target) = some king)
    (hc : checkForCheck king (assignPosition s.pieces selected.id target) = false) :
    applyMove selected target s =
      { pieces := assignPosition s.pieces selected.id target,
        currentTurn := if s.currentTurn = Color.white then Color.black else Color.white,
        gameOver := s.gameOver, selectedPiece := none, validMoves := [],
        turnIndicator := "Current Turn: " ++
          (if s.currentTurn = Color.white then Color.black else Color.white).name } := by
  unfold applyMove
  simp only [h, hc, Bool.false_eq_true, if_false]
  rfl

theorem applyMove_check (selected : Piece) (target : Vector3) (s : GameState) (king : Piece)
    (h : findOpposingKing selected (assignPosition s.pieces selected.id target) = some king)
    (hc : checkForCheck king (assignPosition s.pieces selected.id target) = true)
    (hm : (checkForCheckmate king (assignPosition s.pieces selected.id target)).result = false) :
    applyMove selected target s =
      { pieces := (checkForCheckmate king (assignPosition s.pieces selected.id target)).pieces,
        currentTurn := s.currentTurn,
        gameOver := s.gameOver, selectedPiece := none, validMoves := [],
        turnIndicator := (if s.currentTurn = Color.white then "Black" else "White") ++
          " king is in check!" } := by
  unfold applyMove
  simp only [h, hc, hm, Bool.false_eq_true, if_false, if_true]
  rw [updateTurnIndicator_some _ _ (check_message_ne_empty s.currentTurn)]
  rfl

theorem applyMove_checkmate (selected : Piece) (target : Vector3) (s : GameState) (king : Piece)
    (h : findOpposingKing selected (assignPosition s.pieces selected.id target) = some king)
    (hc : checkForCheck king (assignPosition s.pieces selected.id target) = true)
    (hm : (checkForCheckmate king (assignPosition s.pieces selected.id target)).result = true) :
    applyMove selected target s =
      { pieces := (checkForCheckmate king (assignPosition s.pieces selected.id target)).pieces,
        currentTurn := s.currentTurn,
        gameOver := true, selectedPiece := none, validMoves := [],
        turnIndicator := "Checkmate! " ++ s.currentTurn.name ++ " wins!" } := by
  unfold applyMove
  simp only [h, hc, hm, if_true]
  rw [updateTurnIndicator_some _ _ (checkmate_message_ne_empty s.currentTurn)]
  rfl

/-! ## Reset -/

theorem reset_eq_initialState (s : GameState) : reset s = initialState := rfl

/-! ## Moves on a list of distinct objects -/

theorem distinctIds_of_wellPlaced (pieces : List Piece) (h : WellPlaced pieces) :
    DistinctIds pieces :=
  List.Pairwise.imp (fun hpq => hpq.1) h

theorem distinctIds_assignPosition (pieces : List Piece) (id : Nat) (t : Vector3)
    (h : DistinctIds pieces) : DistinctIds (assignPosition pieces id t) := by
  unfold DistinctIds assignPosition at *
  rw [List.pairwise_map]
  refine List.Pairwise.imp ?_ h
  intro p q hpq
  by_cases h1 : p.id = id <;> by_cases h2 : q.id = id <;> simp only [h1, h2, if_true, if_false]
  · exact absurd (h1.trans h2.symm) hpq
  · exact fun e => h2 e.symm
  · exact h1
  · exact hpq

theorem distinctIds_same_id (pieces : List Piece) (h : DistinctIds pieces) (king : Piece)
    (hk : king ∈ pieces) : ∀ p ∈ pieces, p.id = king.id → p = king := by
  intro p hp hid
  by_contra hne
  have hsymm : Symmetric fun p q : Piece => p.id ≠ q.id :=
    fun a b hab e => hab e.symm
  exact List.Pairwise.forall hsymm h hp hk hne hid

/-- The move branch of the handler on a list of distinct objects: the piece list it
leaves is the list before with the position of the selected object replaced. -/
theorem applyMove_pieces (selected : Piece) (target : Vector3) (s : GameState)
    (hd : DistinctIds s.pieces) :
    (applyMove selected target s).pieces = assignPosition s.pieces selected.id target := by
  have hd2 := distinctIds_assignPosition s.pieces selected.id target hd
  unfold applyMove
  simp only [clearHighlights_pieces]
  split
  · rename_i king hfind
    have hmem : king ∈ assignPosition s.pieces selected.id target :=
      List.mem_of_find?_eq_some hfind
    have hrest := checkForCheckmate_restores_aux king _
      (fun p hp hid => by rw [distinctIds_same_id _ hd2 king hmem p hp hid])
    by_cases hc : checkForCheck king (assignPosition s.pieces selected.id target) = true
    · rw [if_pos hc]
      by_cases hm : (checkForCheckmate king (assignPosition s.pieces selected.id target)).result
          = true
      · rw [if_pos hm]
        exact hrest.2
      · rw [if_neg hm, updateTurnIndicator_pieces]
        exact hrest.2
    · rw [if_neg hc, updateTurnIndicator_pieces]
  · simp only [updateTurnIndicator_pieces]

theorem assignPosition_eq_map_of_mem (pieces : List Piece) (hd : DistinctIds pieces)
    (selected : Piece) (hsel : selected ∈ pieces) (target : Vector3) :
    assignPosition pieces selected.id target =
      pieces.map fun p => if p = selected then { p with position := target } else p := by
  unfold assignPosition
  apply List.map_congr_left
  intro p hp
  by_cases h : p = selected
  · simp only [h, if_true]
  · have hid : p.id ≠ selected.id := fun e => h (distinctIds_same_id pieces hd selected hsel p hp e)
    simp only [h, hid, if_false]

/-! ## Knight, king and pawn -/

theorem stepMove_length_le (pieces : List Piece) (targetX targetZ : Int) :
    (stepMove pieces targetX targetZ).length ≤ 1 := by
  unfold stepMove
  split_ifs
  · exact le_refl 1
  · exact Nat.zero_le 1

theorem flatMap_length_le {α β : Type} (f : α → List β) (hf : ∀ a, (f a).length ≤ 1) :
    ∀ l : List α, (l.flatMap f).length ≤ l.length := by
  intro l
  induction l with
  | nil => exact le_refl 0
  | cons a l ih =>
    rw [List.flatMap_cons, List.length_append, List.length_cons]
    have := hf a
    omega

theorem mem_knightOffsets_iff (a b : Int) :
    (a, b) ∈ knightOffsets ↔
      (a.natAbs = 2 ∧ b.natAbs = 1) ∨ (a.natAbs = 1 ∧ b.natAbs = 2) := by
  simp only [knightOffsets, List.mem_cons, List.mem_singleton, Prod.mk.injEq,
    List.not_mem_nil, or_false]
  omega

theorem mem_knight_moves_iff (pieces : List Piece) (position : Vector3) (v : Vector3) :
    (v ∈ knightOffsets.flatMap fun o =>
        stepMove pieces (position.x + 2 * o.1) (position.z + 2 * o.2)) ↔
      ∃ a b : Int, ((a.natAbs = 2 ∧ b.natAbs = 1) ∨ (a.natAbs = 1 ∧ b.natAbs = 2)) ∧
        v = ⟨position.x + 2 * a, position.z + 2 * b⟩ ∧ onBoard v.x v.z ∧
        isTileOccupied pieces v.x v.z = false := by
  rw [List.mem_flatMap]
  constructor
  · rintro ⟨⟨a, b⟩, ho, hv⟩
    rw [mem_stepMove_iff] at hv
    obtain ⟨h1, h2, h3⟩ := hv
    subst h1
    exact ⟨a, b, (mem_knightOffsets_iff a b).1 ho, rfl, h2, h3⟩
  · rintro ⟨a, b, hab, hv, h2, h3⟩
    subst hv
    exact ⟨(a, b), (mem_knightOffsets_iff a b).2 hab,
      (mem_stepMove_iff pieces _ _ _).2 ⟨rfl, h2, h3⟩⟩

theorem mem_unit_steps_iff (dx : Int) : dx ∈ ([-1, 0, 1] : List Int) ↔ dx = -1 ∨ dx = 0 ∨ dx = 1 := by
  simp only [List.mem_cons, List.mem_singleton, List.not_mem_nil, or_false]

theorem mem_king_moves_iff (pieces : List Piece) (position : Vector3) (v : Vector3) :
    (v ∈ ([-1, 0, 1] : List Int).flatMap fun (dx : Int) =>
        ([-1, 0, 1] : List Int).flatMap fun (dz : Int) =>
          if dx ≠ 0 ∨ dz ≠ 0 then
            stepMove pieces (position.x + 2 * dx) (position.z + 2 * dz)
          else []) ↔
      ∃ dx dz : Int, (dx = -1 ∨ dx = 0 ∨ dx = 1) ∧ (dz = -1 ∨ dz = 0 ∨ dz = 1) ∧
        (dx ≠ 0 ∨ dz ≠ 0) ∧ v = ⟨position.x + 2 * dx, position.z + 2 * dz⟩ ∧
        onBoard v.x v.z ∧ isTileOccupied pieces v.x v.z = false := by
  rw [List.mem_flatMap]
  constructor
  · rintro ⟨dx, hdx, hv⟩
    rw [List.mem_flatMap] at hv
    obtain ⟨dz, hdz, hv⟩ := hv
    split_ifs at hv with hne
    · rw [mem_stepMove_iff] at hv
      obtain ⟨h1, h2, h3⟩ := hv
      subst h1
      exact ⟨dx, dz, (mem_unit_steps_iff dx).1 hdx, (mem_unit_steps_iff dz).1 hdz, hne, rfl,
        h2, h3⟩
    · exact absurd hv (List.not_mem_nil v)
  · rintro ⟨dx, dz, hdx, hdz, hne, hv, h2, h3⟩
    subst hv
    refine ⟨dx, (mem_unit_steps_iff dx).2 hdx, ?_⟩
    rw [List.mem_flatMap]
    refine ⟨dz, (mem_unit_steps_iff dz).2 hdz, ?_⟩
    rw [if_pos hne]
    exact (mem_stepMove_iff pieces _ _ _).2 ⟨rfl, h2, h3⟩

theorem king_moves_length_le (pieces : List Piece) (position : Vector3) :
    (([-1, 0, 1] : List Int).flatMap fun (dx : Int) =>
        ([-1, 0, 1] : List Int).flatMap fun (dz : Int) =>
          if dx ≠ 0 ∨ dz ≠ 0 then
            stepMove pieces (position.x + 2 * dx) (position.z + 2 * dz)
          else []).length ≤ 8 := by
  simp only [List.flatMap_cons, List.flatMap_nil, List.append_nil, List.length_append]
  have h := stepMove_length_le pieces
  have h1 := h (position.x + 2 * -1) (position.z + 2 * -1)
  have h2 := h (position.x + 2 * -1) (position.z + 2 * 0)
  have h3 := h (position.x + 2 * -1) (position.z + 2 * 1)
  have h4 := h (position.x + 2 * 0) (position.z + 2 * -1)
  have h5 := h (position.x + 2 * 0) (position.z + 2 * 1)
  have h6 := h (position.x + 2 * 1) (position.z + 2 * -1)
  have h7 := h (position.x + 2 * 1) (position.z + 2 * 0)
  have h8 := h (position.x + 2 * 1) (position.z + 2 * 1)
  simp only [ne_eq, Int.reduceNeg, neg_eq_zero, one_ne_zero, not_false_eq_true, true_or, or_true,
    if_true, not_true_eq_false, or_self, if_false, List.length_nil] at *
  omega

/-! ## The rook in a corner -/

theorem rayLoop_congr (pieces pieces2 : List Piece) (position : Vector3) (dx dz : Int) :
    ∀ (n i : Nat),
      (∀ k : Nat, i ≤ k →
        isTileOccupied pieces (position.x + 2 * (dx * (k : Int)))
            (position.z + 2 * (dz * (k : Int))) =
          isTileOccupied pieces2 (position.x + 2 * (dx * (k : Int)))
            (position.z + 2 * (dz * (k : Int)))) →
      rayLoop pieces position dx dz n i = rayLoop pieces2 position dx dz n i := by
  intro n
  induction n with
  | zero => intro i _; rfl
  | succ n ih =>
    intro i h
    unfold rayLoop
    simp only
    rw [h i (le_refl i), ih (i + 1) (fun k hk => h k (by omega))]

/-- With no other piece on the rank or the file of the piece, the squares of its
four orthogonal rays are free. -/
theorem rook_ray_free (piece : Piece) (pieces : List Piece)
    (hfree : ∀ p ∈ pieces, p ≠ piece →
      p.position.x ≠ piece.position.x ∧ p.position.z ≠ piece.position.z)
    (d : Int × Int) (hd : d ∈ directionsRook) (k : Nat) (hk : 1 ≤ k) :
    isTileOccupied pieces (piece.position.x + 2 * (d.1 * (k : Int)))
      (piece.position.z + 2 * (d.2 * (k : Int))) = false := by
  rw [isTileOccupied_eq_false_iff]
  intro p hp hpos
  have hx : p.position.x = piece.position.x + 2 * (d.1 * (k : Int)) := by rw [hpos]
  have hz : p.position.z = piece.position.z + 2 * (d.2 * (k : Int)) := by rw [hpos]
  simp only [directionsRook, List.mem_cons, List.mem_singleton, List.not_mem_nil, or_false] at hd
  by_cases hpp : p = piece
  · rw [hpp] at hx hz
    rcases hd with rfl | rfl | rfl | rfl <;> simp only at hx hz <;> omega
  · have := hfree p hp hpp
    rcases hd with rfl | rfl | rfl | rfl <;> simp only at hx hz <;> omega

theorem rook_moves_of_clear_lines (piece : Piece) (pieces : List Piece) (bs : Nat)
    (hfree : ∀ p ∈ pieces, p ≠ piece →
      p.position.x ≠ piece.position.x ∧ p.position.z ≠ piece.position.z) :
    slideMoves pieces piece.position bs directionsRook =
      slideMoves [] piece.position bs directionsRook := by
  have h : ∀ d ∈ directionsRook,
      rayLoop pieces piece.position d.1 d.2 (bs - 1) 1 =
        rayLoop [] piece.position d.1 d.2 (bs - 1) 1 := by
    intro d hd
    apply rayLoop_congr
    intro k hk
    rw [rook_ray_free piece pieces hfree d hd k hk]
    rfl
  unfold slideMoves
  have h1 := h (1, 0) (by decide)
  have h2 := h (-1, 0) (by decide)
  have h3 := h (0, 1) (by decide)
  have h4 := h (0, -1) (by decide)
  simp only [directionsRook, List.flatMap_cons, List.flatMap_nil, h1, h2, h3, h4]

theorem odd_on_board (a : Int) (h1 : -7 ≤ a) (h2 : a ≤ 7) (h3 : a % 2 = 1) :
    a = -7 ∨ a = -5 ∨ a = -3 ∨ a = -1 ∨ a = 1 ∨ a = 3 ∨ a = 5 ∨ a = 7 := by
  omega

theorem corner_rook_list_lower_left :
    slideMoves [] ⟨-7, -7⟩ boardSize directionsRook =
      [⟨-5, -7⟩, ⟨-3, -7⟩, ⟨-1, -7⟩, ⟨1, -7⟩, ⟨3, -7⟩, ⟨5, -7⟩, ⟨7, -7⟩,
        ⟨-7, -5⟩, ⟨-7, -3⟩, ⟨-7, -1⟩, ⟨-7, 1⟩, ⟨-7, 3⟩, ⟨-7, 5⟩, ⟨-7, 7⟩] := by
  decide

theorem corner_rook_moves_lower_left :
    (slideMoves [] ⟨-7, -7⟩ boardSize directionsRook).length = 14 ∧
      (slideMoves [] ⟨-7, -7⟩ boardSize directionsRook).Nodup ∧
      ∀ v : Vector3, v ∈ slideMoves [] ⟨-7, -7⟩ boardSize directionsRook ↔
        isSquare v ∧ v ≠ ⟨-7, -7⟩ ∧ (v.x = -7 ∨ v.z = -7) := by
  rw [corner_rook_list_lower_left]
  refine ⟨by decide, by decide, ?_⟩
  intro v
  obtain ⟨vx, vz⟩ := v
  constructor
  · intro h
    simp only [List.mem_cons, List.mem_singleton, List.not_mem_nil, or_false,
      Vector3.mk.injEq] at h
    simp only [isSquare, onBoard, ne_eq, Vector3.mk.injEq]
    rcases h with ⟨rfl, rfl⟩ | ⟨rfl, rfl⟩ | ⟨rfl, rfl⟩ | ⟨rfl, rfl⟩ | ⟨rfl, rfl⟩ | ⟨rfl, rfl⟩ |
      ⟨rfl, rfl⟩ | ⟨rfl, rfl⟩ | ⟨rfl, rfl⟩ | ⟨rfl, rfl⟩ | ⟨rfl, rfl⟩ | ⟨rfl, rfl⟩ | ⟨rfl, rfl⟩ |
      ⟨rfl, rfl⟩ <;> decide
  · rintro ⟨⟨⟨h1, h2, h3, h4⟩, hox, hoz⟩, hne, hxz⟩
    simp only at h1 h2 h3 h4 hox hoz hxz
    simp only [ne_eq, Vector3.mk.injEq, not_and] at hne
    rcases hxz with rfl | rfl
    · rcases odd_on_board vz h3 h4 hoz with rfl | rfl | rfl | rfl | rfl | rfl | rfl | rfl
      all_goals first | decide | exact (hne rfl rfl).elim
    · rcases odd_on_board vx h1 h2 hox with rfl | rfl | rfl | rfl | rfl | rfl | rfl | rfl
      all_goals first | decide | exact (hne rfl rfl).elim

theorem corner_rook_list_upper_left :
    slideMoves [] ⟨-7, 7⟩ boardSize directionsRook =
      [⟨-5, 7⟩, ⟨-3, 7⟩, ⟨-1, 7⟩, ⟨1, 7⟩, ⟨3, 7⟩, ⟨5, 7⟩, ⟨7, 7⟩,
        ⟨-7, 5⟩, ⟨-7, 3⟩, ⟨-7, 1⟩, ⟨-7, -1⟩, ⟨-7, -3⟩, ⟨-7, -5⟩, ⟨-7, -7⟩] := by
  decide

theorem corner_rook_moves_upper_left :
    (slideMoves [] ⟨-7, 7⟩ boardSize directionsRook).length = 14 ∧
      (slideMoves [] ⟨-7, 7⟩ boardSize directionsRook).Nodup ∧
      ∀ v : Vector3, v ∈ slideMoves [] ⟨-7, 7⟩ boardSize directionsRook ↔
        isSquare v ∧ v ≠ ⟨-7, 7⟩ ∧ (v.x = -7 ∨ v.z = 7) := by
  rw [corner_rook_list_upper_left]
  refine ⟨by decide, by decide, ?_⟩
  intro v
  obtain ⟨vx, vz⟩ := v
  constructor
  · intro h
    simp only [List.mem_cons, List.mem_singleton, List.not_mem_nil, or_false,
      Vector3.mk.injEq] at h
    simp only [isSquare, onBoard, ne_eq, Vector3.mk.injEq]
    rcases h with ⟨rfl, rfl⟩ | ⟨rfl, rfl⟩ | ⟨rfl, rfl⟩ | ⟨rfl, rfl⟩ | ⟨rfl, rfl⟩ | ⟨rfl, rfl⟩ |
      ⟨rfl, rfl⟩ | ⟨rfl, rfl⟩ | ⟨rfl, rfl⟩ | ⟨rfl, rfl⟩ | ⟨rfl, rfl⟩ | ⟨rfl, rfl⟩ | ⟨rfl, rfl⟩ |
      ⟨rfl, rfl⟩ <;> decide
  · rintro ⟨⟨⟨h1, h2, h3, h4⟩, hox, hoz⟩, hne, hxz⟩
    simp only at h1 h2 h3 h4 hox hoz hxz
    simp only [ne_eq, Vector3.mk.injEq, not_and] at hne
    rcases hxz with rfl | rfl
    · rcases odd_on_board vz h3 h4 hoz with rfl | rfl | rfl | rfl | rfl | rfl | rfl | rfl
      all_goals first | decide | exact (hne rfl rfl).elim
    · rcases odd_on_board vx h1 h2 hox with rfl | rfl | rfl | rfl | rfl | rfl | rfl | rfl
      all_goals first | decide | exact (hne rfl rfl).elim

theorem corner_rook_list_lower_right :
    slideMoves [] ⟨7, -7⟩ boardSize directionsRook =
      [⟨5, -7⟩, ⟨3, -7⟩, ⟨1, -7⟩, ⟨-1, -7⟩, ⟨-3, -7⟩, ⟨-5, -7⟩, ⟨-7, -7⟩,
        ⟨7, -5⟩, ⟨7, -3⟩, ⟨7, -1⟩, ⟨7, 1⟩, ⟨7, 3⟩, ⟨7, 5⟩, ⟨7, 7⟩] := by
  decide

theorem corner_rook_moves_lower_right :
    (slideMoves [] ⟨7, -7⟩ boardSize directionsRook).length = 14 ∧
      (slideMoves [] ⟨7, -7⟩ boardSize directionsRook).Nodup ∧
      ∀ v : Vector3, v ∈ slideMoves [] ⟨7, -7⟩ boardSize directionsRook ↔
        isSquare v ∧ v ≠ ⟨7, -7⟩ ∧ (v.x = 7 ∨ v.z = -7) := by
  rw [corner_rook_list_lower_right]
  refine ⟨by decide, by decide, ?_⟩
  intro v
  obtain ⟨vx, vz⟩ := v
  constructor
  · intro h
    simp only [List.mem_cons, List.mem_singleton, List.not_mem_nil, or_false,
      Vector3.mk.injEq] at h
    simp only [isSquare, onBoard, ne_eq, Vector3.mk.injEq]
    rcases h with ⟨rfl, rfl⟩ | ⟨rfl, rfl⟩ | ⟨rfl, rfl⟩ | ⟨rfl, rfl⟩ | ⟨rfl, rfl⟩ | ⟨rfl, rfl⟩ |
      ⟨rfl, rfl⟩ | ⟨rfl, rfl⟩ | ⟨rfl, rfl⟩ | ⟨rfl, rfl⟩ | ⟨rfl, rfl⟩ | ⟨rfl, rfl⟩ | ⟨rfl, rfl⟩ |
      ⟨rfl, rfl⟩ <;> decide
  · rintro ⟨⟨⟨h1, h2, h3, h4⟩, hox, hoz⟩, hne, hxz⟩
    simp only at h1 h2 h3 h4 hox hoz hxz
    simp only [ne_eq, Vector3.mk.injEq, not_and] at hne
    rcases hxz with rfl | rfl
    · rcases odd_on_board vz h3 h4 hoz with rfl | rfl | rfl | rfl | rfl | rfl | rfl | rfl
      all_goals first | decide | exact (hne rfl rfl).elim
    · rcases odd_on_board vx h1 h2 hox with rfl | rfl | rfl | rfl | rfl | rfl | rfl | rfl
      all_goals first | decide | exact (hne rfl rfl).elim

theorem corner_rook_list_upper_right :
    slideMoves [] ⟨7, 7⟩ boardSize directionsRook =
      [⟨5, 7⟩, ⟨3, 7⟩, ⟨1, 7⟩, ⟨-1, 7⟩, ⟨-3, 7⟩, ⟨-5, 7⟩, ⟨-7, 7⟩,
        ⟨7, 5⟩, ⟨7, 3⟩, ⟨7, 1⟩, ⟨7, -1⟩, ⟨7, -3⟩, ⟨7, -5⟩, ⟨7, -7⟩] := by
  decide

theorem corner_rook_moves_upper_right :
    (slideMoves [] ⟨7, 7⟩ boardSize directionsRook).length = 14 ∧
      (slideMoves [] ⟨7, 7⟩ boardSize directionsRook).Nodup ∧
      ∀ v : Vector3, v ∈ slideMoves [] ⟨7, 7⟩ boardSize directionsRook ↔
        isSquare v ∧ v ≠ ⟨7, 7⟩ ∧ (v.x = 7 ∨ v.z = 7) := by
  rw [corner_rook_list_upper_right]
  refine ⟨by decide, by decide, ?_⟩
  intro v
  obtain ⟨vx, vz⟩ := v
  constructor
  · intro h
    simp only [List.mem_cons, List.mem_singleton, List.not_mem_nil, or_false,
      Vector3.mk.injEq] at h
    simp only [isSquare, onBoard, ne_eq, Vector3.mk.injEq]
    rcases h with ⟨rfl, rfl⟩ | ⟨rfl, rfl⟩ | ⟨rfl, rfl⟩ | ⟨rfl, rfl⟩ | ⟨rfl, rfl⟩ | ⟨rfl, rfl⟩ |
      ⟨rfl, rfl⟩ | ⟨rfl, rfl⟩ | ⟨rfl, rfl⟩ | ⟨rfl, rfl⟩ | ⟨rfl, rfl⟩ | ⟨rfl, rfl⟩ | ⟨rfl, rfl⟩ |
      ⟨rfl, rfl⟩ <;> decide
  · rintro ⟨⟨⟨h1, h2, h3, h4⟩, hox, hoz⟩, hne, hxz⟩
    simp only at h1 h2 h3 h4 hox hoz hxz
    simp only [ne_eq, Vector3.mk.injEq, not_and] at hne
    rcases hxz with rfl | rfl
    · rcases odd_on_board vz h3 h4 hoz with rfl | rfl | rfl | rfl | rfl | rfl | rfl | rfl
      all_goals first | decide | exact (hne rfl rfl).elim
    · rcases odd_on_board vx h1 h2 hox with rfl | rfl | rfl | rfl | rfl | rfl | rfl | rfl
      all_goals first | decide | exact (hne rfl rfl).elim

/-- The rook moves from a corner of the empty board. -/
theorem corner_rook_moves (position : Vector3) (hx : position.x = -7 ∨ position.x = 7)
    (hz : position.z = -7 ∨ position.z = 7) :
    (slideMoves [] position boardSize directionsRook).length = 14 ∧
      (slideMoves [] position boardSize directionsRook).Nodup ∧
      ∀ v : Vector3, v ∈ slideMoves [] position boardSize directionsRook ↔
        isSquare v ∧ v ≠ position ∧ (v.x = position.x ∨ v.z = position.z) := by
  obtain ⟨x, z⟩ := position
  simp only at hx hz
  rcases hx with rfl | rfl <;> rcases hz with rfl | rfl
  · exact corner_rook_moves_lower_left
  · exact corner_rook_moves_upper_left
  · exact corner_rook_moves_lower_right
  · exact corner_rook_moves_upper_right

/-! ## Checkmate equals check -/

theorem mem_assignPosition_restore (pieces : List Piece) (king : Piece) (hk : king ∈ pieces)
    (a : Vector3) :
    king ∈ assignPosition (assignPosition pieces king.id a) king.id king.position := by
  rw [assignPosition_assignPosition]
  unfold assignPosition
  rw [List.mem_map]
  refine ⟨king, hk, ?_⟩
  simp only [if_true]

/-- With the king in the piece list the escape search accepts no square, whatever
else the list holds. -/
theorem escapeLoop_result_true (originalPosition : Vector3) (offsets : List (Int × Int))
    (king : Piece) (hpos : king.position = originalPosition) :
    ∀ pieces : List Piece, king ∈ pieces →
      (escapeLoop originalPosition offsets king pieces).result = true := by
  induction offsets with
  | nil => intro pieces _; rfl
  | cons o rest ih =>
    intro pieces hk
    obtain ⟨x, z⟩ := o
    unfold escapeLoop
    simp only
    have hocc := isTileOccupied_assignPosition_self pieces king hk
      ⟨originalPosition.x + 2 * x, originalPosition.z + 2 * z⟩
    simp only at hocc
    split_ifs with hne hesc
    · rw [hocc] at hesc
      exact absurd hesc.1 (by decide)
    · have hking : ({ ({ king with position :=
          ⟨originalPosition.x + 2 * x, originalPosition.z + 2 * z⟩ } : Piece) with
          position := originalPosition } : Piece) = king := by
        cases king with
        | mk kid m pos =>
          simp only at hpos
          simp only [hpos]
      rw [hking]
      apply ih
      have := mem_assignPosition_restore pieces king hk
        ⟨originalPosition.x + 2 * x, originalPosition.z + 2 * z⟩
      rw [hpos] at this
      exact this
    · exact ih pieces hk

theorem checkForCheckmate_result_of_mem (king : Piece) (pieces : List Piece)
    (hk : king ∈ pieces) :
    (checkForCheckmate king pieces).result = checkForCheck king pieces := by
  unfold checkForCheckmate
  simp only
  split_ifs with hc
  · exact hc.symm
  · rw [escapeLoop_result_true king.position loopOffsets king rfl pieces hk]
    cases h : checkForCheck king pieces
    · exact absurd h hc
    · rfl

theorem turn_message_ne_check (c : Color) :
    "Current Turn: " ++ c.name ≠ "Black king is in check!" ∧
      "Current Turn: " ++ c.name ≠ "White king is in check!" := by
  cases c <;> decide

theorem checkmate_message_ne_check (c : Color) :
    "Checkmate! " ++ c.name ++ " wins!" ≠ "Black king is in check!" ∧
      "Checkmate! " ++ c.name ++ " wins!" ≠ "White king is in check!" := by
  cases c <;> decide

/-- A move never ends with the check message in the indicator. -/
theorem applyMove_never_check_message (selected : Piece) (target : Vector3) (s : GameState) :
    (applyMove selected target s).turnIndicator ≠ "Black king is in check!" ∧
      (applyMove selected target s).turnIndicator ≠ "White king is in check!" := by
  cases hfind : findOpposingKing selected (assignPosition s.pieces selected.id target) with
  | none =>
    rw [applyMove_no_king selected target s hfind]
    exact turn_message_ne_check _
  | some king =>
    have hmem : king ∈ assignPosition s.pieces selected.id target :=
      List.mem_of_find?_eq_some hfind
    cases hc : checkForCheck king (assignPosition s.pieces selected.id target) with
    | false =>
      rw [applyMove_no_check selected target s king hfind hc]
      exact turn_message_ne_check _
    | true =>
      have hmate := checkForCheckmate_result_of_mem king _ hmem
      rw [hc] at hmate
      rw [applyMove_checkmate selected target s king hfind hc hmate]
      exact checkmate_message_ne_check _

/-! ## No check in a reachable state -/

theorem checkForCheck_false_of_wellPlaced (pieces : List Piece) (hw : WellPlaced pieces)
    (king : Piece) (hk : king ∈ pieces) : checkForCheck king pieces = false := by
  unfold checkForCheck
  rw [List.any_eq_false]
  intro p hp hc
  simp only [Bool.and_eq_true, decide_eq_true_eq] at hc
  obtain ⟨hcol, hint⟩ := hc
  have hne : p ≠ king := fun e => hcol (by rw [e])
  have hsymm : Symmetric fun p q : Piece => p.id ≠ q.id ∧ p.position ≠ q.position :=
    fun a b h => ⟨fun e => h.1 e.symm, fun e => h.2 e.symm⟩
  have hpos := (List.Pairwise.forall hsymm hw hp hk hne).2
  apply hpos
  unfold intersectsMesh at hint
  simp only [Bool.and_eq_true, beq_iff_eq] at hint
  cases hq : p.position with
  | mk px pz =>
    cases hr : king.position with
    | mk kx kz =>
      rw [hq, hr] at hint
      simp only at hint
      rw [hint.1, hint.2]

/-- A move onto a free square of a well-placed list passes the turn. -/
theorem applyMove_of_wellPlaced (selected : Piece) (target : Vector3) (s : GameState)
    (hw : WellPlaced (assignPosition s.pieces selected.id target)) :
    applyMove selected target s =
      { pieces := assignPosition s.pieces selected.id target,
        currentTurn := if s.currentTurn = Color.white then Color.black else Color.white,
        gameOver := s.gameOver, selectedPiece := none, validMoves := [],
        turnIndicator := "Current Turn: " ++
          (if s.currentTurn = Color.white then Color.black else Color.white).name } := by
  cases hfind : findOpposingKing selected (assignPosition s.pieces selected.id target) with
  | none => exact applyMove_no_king selected target s hfind
  | some king =>
    have hmem : king ∈ assignPosition s.pieces selected.id target :=
      List.mem_of_find?_eq_some hfind
    exact applyMove_no_check selected target s king hfind
      (checkForCheck_false_of_wellPlaced _ hw king hmem)

theorem wellPlaced_after_legal_target (s : GameState) (h : Inv s) (selected : Piece)
    (target : Vector3) (ht : target ∈ s.validMoves) :
    WellPlaced (assignPosition s.pieces selected.id target) := by
  have hfree : ∀ p ∈ s.pieces, p.position ≠ target :=
    (isTileOccupied_eq_false_iff s.pieces target.x target.z).1 (h.2 target ht)
  exact wellPlaced_assignPosition s.pieces selected.id target h.1 hfree

theorem selectPiece_gameOver (piece : Piece) (s : GameState) :
    (selectPiece piece s).gameOver = s.gameOver := by
  unfold selectPiece
  split_ifs <;> rfl

theorem onPointer_gameOver_of_inv (pointerInfo : PointerInfo) (s : GameState) (h : Inv s)
    (hg : s.gameOver = false) : (onPointer pointerInfo s).gameOver = false := by
  cases pointerInfo with
  | otherType =>
    unfold onPointer
    simp only [hg, Bool.false_eq_true, if_false]
  | pick m =>
    cases m with
    | none =>
      unfold onPointer
      simp only [hg, Bool.false_eq_true, if_false]
    | some pickedMesh =>
      by_cases hp : pickedMesh.isPieceOf s.pieces = true
      · unfold onPointer
        simp only [hg, hp, Bool.false_eq_true, if_false, if_true]
        cases pickedMesh with
        | piece p => simp only [selectPiece_gameOver, hg]
        | other position => simp only [hg]
      · have hp2 : pickedMesh.isPieceOf s.pieces = false := by
          cases hh : pickedMesh.isPieceOf s.pieces
          · rfl
          · exact absurd hh hp
        cases hsel : s.selectedPiece with
        | none =>
          unfold onPointer
          simp only [hg, hp2, hsel, Bool.false_eq_true, if_false]
        | some selected =>
          by_cases ht : pickedMesh.position ∈ s.validMoves
          · rw [onPointer_legal_target s selected pickedMesh hg hsel hp2 ht,
              applyMove_of_wellPlaced selected pickedMesh.position s
                (wellPlaced_after_legal_target s h selected pickedMesh.position ht)]
            exact hg
          · rw [onPointer_illegal_target s selected pickedMesh hg hsel hp2 ht]
            exact hg

theorem gameOver_false_of_reachable (s : GameState) (h : Reachable s) : s.gameOver = false := by
  induction h with
  | afterReset s => rfl
  | afterEvent s e hr ih =>
    cases e with
    | pointer pointerInfo => exact onPointer_gameOver_of_inv pointerInfo s (inv_of_reachable s hr) ih
    | resetClick => rfl

/-! ## The move branch for either answer of the checkmate test -/

theorem applyMove_eq_applyMoveWith (selected : Piece) (target : Vector3) (s : GameState) :
    applyMove selected target s = applyMoveWith checkForCheckmate selected target s := rfl

theorem applyMoveWith_no_king (mate : Piece → List Piece → CheckmateOutcome)
    (selected : Piece) (target : Vector3) (s : GameState)
    (h : findOpposingKing selected (assignPosition s.pieces selected.id target) = none) :
    applyMoveWith mate selected target s =
      { pieces := assignPosition s.pieces selected.id target,
        currentTurn := if s.currentTurn = Color.white then Color.black else Color.white,
        gameOver := s.gameOver, selectedPiece := none, validMoves := [],
        turnIndicator := "Current Turn: " ++
          (if s.currentTurn = Color.white then Color.black else Color.white).name } := by
  unfold applyMoveWith
  simp only [h]
  rfl

theorem applyMoveWith_no_check (mate : Piece → List Piece → CheckmateOutcome)
    (selected : Piece) (target : Vector3) (s : GameState) (king : Piece)
    (h : findOpposingKing selected (assignPosition s.pieces selected.id target) = some king)
    (hc : checkForCheck king (assignPosition s.pieces selected.id target) = false) :
    applyMoveWith mate selected target s =
      { pieces := assignPosition s.pieces selected.id target,
        currentTurn := if s.currentTurn = Color.white then Color.black else Color.white,
        gameOver := s.gameOver, selectedPiece := none, validMoves := [],
        turnIndicator := "Current Turn: " ++
          (if s.currentTurn = Color.white then Color.black else Color.white).name } := by
  unfold applyMoveWith
  simp only [h, hc, Bool.false_eq_true, if_false]
  rfl

theorem applyMoveWith_check (mate : Piece → List Piece → CheckmateOutcome)
    (selected : Piece) (target : Vector3) (s : GameState) (king : Piece)
    (h : findOpposingKing selected (assignPosition s.pieces selected.id target) = some king)
    (hc : checkForCheck king (assignPosition s.pieces selected.id target) = true)
    (hm : (mate king (assignPosition s.pieces selected.id target)).result = false) :
    applyMoveWith mate selected target s =
      { pieces := (mate king (assignPosition s.pieces selected.id target)).pieces,
        currentTurn := s.currentTurn,
        gameOver := s.gameOver, selectedPiece := none, validMoves := [],
        turnIndicator := (if s.currentTurn = Color.white then "Black" else "White") ++
          " king is in check!" } := by
  unfold applyMoveWith
  simp only [h, hc, hm, Bool.false_eq_true, if_false, if_true]
  rw [updateTurnIndicator_some _ _ (check_message_ne_empty s.currentTurn)]
  rfl

theorem applyMoveWith_checkmate (mate : Piece → List Piece → CheckmateOutcome)
    (selected : Piece) (target : Vector3) (s : GameState) (king : Piece)
    (h : findOpposingKing selected (assignPosition s.pieces selected.id target) = some king)
    (hc : checkForCheck king (assignPosition s.pieces selected.id target) = true)
    (hm : (mate king (assignPosition s.pieces selected.id target)).result = true) :
    applyMoveWith mate selected target s =
      { pieces := (mate king (assignPosition s.pieces selected.id target)).pieces,
        currentTurn := s.currentTurn,
        gameOver := true, selectedPiece := none, validMoves := [],
        turnIndicator := "Checkmate! " ++ s.currentTurn.name ++ " wins!" } := by
  unfold applyMoveWith
  simp only [h, hc, hm, if_true]
  rw [updateTurnIndicator_some _ _ (checkmate_message_ne_empty s.currentTurn)]
  rfl

/-! ## The claims -/

/-- C1: for a piece of any type and colour that stands on a board square, and any
piece list, every destination returned by `getValidMoves` has both coordinates
within `[-3.5, 3.5]`, is unoccupied (`isTileOccupied` is false for it, so it is the
square of no piece of the list, friend or enemy), and is not the square of the
piece itself. -/
theorem getValidMoves_on_board_and_unoccupied (piece : Piece) (pieces : List Piece) (bs : Nat)
    (v : Vector3) (hb : onBoard piece.position.x piece.position.z)
    (hv : v ∈ getValidMoves piece pieces bs) :
    onBoard v.x v.z ∧ isTileOccupied pieces v.x v.z = false ∧
      (∀ p ∈ pieces, p.position ≠ v) ∧ v ≠ piece.position := by
  obtain ⟨h1, h2, h3⟩ := getValidMoves_sound_aux piece pieces bs v hv
  exact ⟨h1 hb, h2, (isTileOccupied_eq_false_iff pieces v.x v.z).1 h2, h3⟩

/-- C1 at the starting layout: the knight on `(-2.5, -3.5)` may go to `(-1.5, -1.5)`. -/
theorem getValidMoves_on_board_and_unoccupied_witness :
    onBoard startKnight.position.x startKnight.position.z ∧
      (⟨-3, -3⟩ : Vector3) ∈ getValidMoves startKnight createPieces boardSize ∧
      (onBoard (-3) (-3) ∧ isTileOccupied createPieces (-3) (-3) = false ∧
        (∀ p ∈ createPieces, p.position ≠ ⟨-3, -3⟩) ∧
        (⟨-3, -3⟩ : Vector3) ≠ startKnight.position) :=
  ⟨by decide, by decide,
    getValidMoves_on_board_and_unoccupied startKnight createPieces boardSize ⟨-3, -3⟩
      (by decide) (by decide)⟩

/-- C3: for a rook and a direction of `directionsRook`, or a bishop and a direction
of `directionsBishop`, and any piece list: the square at step `i` of the direction
(`1 ≤ i < boardSize`, that is `1 ≤ i ≤ 7` for the board size 8 the game passes) is in
the result of `getValidMoves` if and only if every square at the steps `1..i` of
that direction is on the board and unoccupied. -/
theorem ray_square_iff_path_free (piece : Piece) (pieces : List Piece) (bs : Nat)
    (d : Int × Int) (i : Nat)
    (hd : (piece.metadata.type = "rook" ∧ d ∈ directionsRook) ∨
      (piece.metadata.type = "bishop" ∧ d ∈ directionsBishop))
    (hi : 1 ≤ i) (hib : i < bs) :
    (⟨piece.position.x + 2 * (d.1 * (i : Int)), piece.position.z + 2 * (d.2 * (i : Int))⟩ :
        Vector3) ∈ getValidMoves piece pieces bs ↔
      ∀ k : Nat, 1 ≤ k → k ≤ i →
        onBoard (piece.position.x + 2 * (d.1 * (k : Int)))
          (piece.position.z + 2 * (d.2 * (k : Int))) ∧
        isTileOccupied pieces (piece.position.x + 2 * (d.1 * (k : Int)))
          (piece.position.z + 2 * (d.2 * (k : Int))) = false := by
  rcases hd with ⟨ht, hd⟩ | ⟨ht, hd⟩
  · rw [getValidMoves_rook piece pieces bs ht]
    exact slideMoves_step_iff pieces piece.position bs directionsRook directionsRook_unique
      d hd i hi hib
  · rw [getValidMoves_bishop piece pieces bs ht]
    exact slideMoves_step_iff pieces piece.position bs directionsBishop directionsBishop_unique
      d hd i hi hib

/-- C3 for the corner rook with a pawn three squares up its file, at step 2 of the
direction `(0, 1)`. -/
theorem ray_square_iff_path_free_witness :
    ((cornerRook.metadata.type = "rook" ∧ ((0, 1) : Int × Int) ∈ directionsRook) ∨
      (cornerRook.metadata.type = "bishop" ∧ ((0, 1) : Int × Int) ∈ directionsBishop)) ∧
    1 ≤ 2 ∧ 2 < boardSize ∧
    ((⟨cornerRook.position.x + 2 * (((0, 1) : Int × Int).1 * ((2 : Nat) : Int)),
        cornerRook.position.z + 2 * (((0, 1) : Int × Int).2 * ((2 : Nat) : Int))⟩ : Vector3) ∈
        getValidMoves cornerRook [cornerRook, filePawn] boardSize ↔
      ∀ k : Nat, 1 ≤ k → k ≤ 2 →
        onBoard (cornerRook.position.x + 2 * (((0, 1) : Int × Int).1 * (k : Int)))
          (cornerRook.position.z + 2 * (((0, 1) : Int × Int).2 * (k : Int))) ∧
        isTileOccupied [cornerRook, filePawn]
          (cornerRook.position.x + 2 * (((0, 1) : Int × Int).1 * (k : Int)))
          (cornerRook.position.z + 2 * (((0, 1) : Int × Int).2 * (k : Int))) = false) :=
  ⟨Or.inl ⟨by decide, by decide⟩, by decide, by decide,
    ray_square_iff_path_free cornerRook [cornerRook, filePawn] boardSize (0, 1) 2
      (Or.inl ⟨by decide, by decide⟩) (by decide) (by decide)⟩

/-- C2: in every state reachable from a reset by pointer events (picks of pieces,
which select, and picks of tiles, which attempt a move) and further resets, no two
entries of the piece list stand on the same square. -/
theorem reachable_no_shared_square (s : GameState) (h : Reachable s) :
    s.pieces.Pairwise fun p q => p.position ≠ q.position :=
  List.Pairwise.imp (fun hpq => hpq.2) (inv_of_reachable s h).1

/-- C2 after the first knight move of a game. -/
theorem reachable_no_shared_square_witness :
    Reachable afterKnightMove ∧
      afterKnightMove.pieces.Pairwise fun p q => p.position ≠ q.position :=
  ⟨Reachable.afterEvent _ _ (Reachable.afterEvent _ _ (Reachable.afterReset initialState)),
    reachable_no_shared_square afterKnightMove
      (Reachable.afterEvent _ _ (Reachable.afterEvent _ _ (Reachable.afterReset initialState)))⟩

/-- C4, as amended: in a state that is not game-over and has a selected piece, a pick
of a mesh that is not a piece and whose square is in `validMoves` runs the move branch
of the handler with `checkForCheckmate` as the checkmate test; and the move branch,
for either answer of the checkmate test (`mate` stands for it, `checkForCheckmate`
included), clears the selection and `validMoves` and, with the opposing king looked up
in the piece list after the move: (a) if there is no such king or it is not in check,
the turn owner is flipped, `gameOver` is unchanged and the indicator shows the new turn
owner; (b) if it is in check and the checkmate test answers false, the turn owner is
unchanged, `gameOver` stays false and the indicator shows the check message; (c) if it
is in check and the checkmate test answers true, the turn owner is unchanged,
`gameOver` becomes true and the indicator names the turn owner as winner, which is the
colour of the piece that moved whenever that piece has the turn owner's colour. -/
theorem legal_move_outcome (mate : Piece → List Piece → CheckmateOutcome) (s : GameState)
    (selected : Piece) (pickedMesh : Mesh)
    (hg : s.gameOver = false) (hs : s.selectedPiece = some selected)
    (hm : pickedMesh.isPieceOf s.pieces = false) (ht : pickedMesh.position ∈ s.validMoves) :
    onPointer (PointerInfo.pick (some pickedMesh)) s =
      applyMoveWith checkForCheckmate selected pickedMesh.position s ∧
    (applyMoveWith mate selected pickedMesh.position s).selectedPiece = none ∧
    (applyMoveWith mate selected pickedMesh.position s).validMoves = [] ∧
    ((∀ king, findOpposingKing selected
          (assignPosition s.pieces selected.id pickedMesh.position) = some king →
        checkForCheck king (assignPosition s.pieces selected.id pickedMesh.position) = false) →
      (applyMoveWith mate selected pickedMesh.position s).currentTurn =
          (if s.currentTurn = Color.white then Color.black else Color.white) ∧
        (applyMoveWith mate selected pickedMesh.position s).gameOver = s.gameOver ∧
        (applyMoveWith mate selected pickedMesh.position s).turnIndicator =
          "Current Turn: " ++
            (if s.currentTurn = Color.white then Color.black else Color.white).name) ∧
    (∀ king, findOpposingKing selected
          (assignPosition s.pieces selected.id pickedMesh.position) = some king →
        checkForCheck king (assignPosition s.pieces selected.id pickedMesh.position) = true →
        (mate king (assignPosition s.pieces selected.id pickedMesh.position)).result = false →
      (applyMoveWith mate selected pickedMesh.position s).currentTurn = s.currentTurn ∧
        (applyMoveWith mate selected pickedMesh.position s).gameOver = false ∧
        (applyMoveWith mate selected pickedMesh.position s).turnIndicator =
          (if s.currentTurn = Color.white then "Black" else "White") ++ " king is in check!") ∧
    (∀ king, findOpposingKing selected
          (assignPosition s.pieces selected.id pickedMesh.position) = some king →
        checkForCheck king (assignPosition s.pieces selected.id pickedMesh.position) = true →
        (mate king (assignPosition s.pieces selected.id pickedMesh.position)).result = true →
      (applyMoveWith mate selected pickedMesh.position s).currentTurn = s.currentTurn ∧
        (applyMoveWith mate selected pickedMesh.position s).gameOver = true ∧
        (applyMoveWith mate selected pickedMesh.position s).turnIndicator =
          "Checkmate! " ++ s.currentTurn.name ++ " wins!" ∧
        (selected.metadata.color = s.currentTurn →
          (applyMoveWith mate selected pickedMesh.position s).turnIndicator =
            "Checkmate! " ++ selected.metadata.color.name ++ " wins!")) := by
  refine ⟨?_, rfl, rfl, ?_, ?_, ?_⟩
  · rw [onPointer_legal_target s selected pickedMesh hg hs hm ht, applyMove_eq_applyMoveWith]
  · intro hno
    cases hfind : findOpposingKing selected
        (assignPosition s.pieces selected.id pickedMesh.position) with
    | none =>
      rw [applyMoveWith_no_king mate selected pickedMesh.position s hfind]
      exact ⟨rfl, rfl, rfl⟩
    | some king =>
      rw [applyMoveWith_no_check mate selected pickedMesh.position s king hfind
        (hno king hfind)]
      exact ⟨rfl, rfl, rfl⟩
  · intro king hfind hc hmate
    rw [applyMoveWith_check mate selected pickedMesh.position s king hfind hc hmate]
    exact ⟨rfl, hg, rfl⟩
  · intro king hfind hc hmate
    rw [applyMoveWith_checkmate mate selected pickedMesh.position s king hfind hc hmate]
    refine ⟨rfl, rfl, rfl, ?_⟩
    intro hcol
    rw [hcol]

/-- C4, as amended, at `raidState`: black's queen lands on the square of the white
king. With the handler's own checkmate test the pick ends the game with
`Checkmate! black wins!`, black being both the turn owner and the mover (case c); with
a checkmate test that answers false the same move leaves the turn with black,
`gameOver` false and the message that the white king is in check (case b). -/
theorem legal_move_outcome_witness :
    raidState.gameOver = false ∧ raidState.selectedPiece = some raider ∧
      (Mesh.other ⟨1, -7⟩).isPieceOf raidState.pieces = false ∧
      (Mesh.other ⟨1, -7⟩).position ∈ raidState.validMoves ∧
      ((onPointer (PointerInfo.pick (some (Mesh.other ⟨1, -7⟩))) raidState).selectedPiece
          = none ∧
        (onPointer (PointerInfo.pick (some (Mesh.other ⟨1, -7⟩))) raidState).currentTurn
          = Color.black ∧
        (onPointer (PointerInfo.pick (some (Mesh.other ⟨1, -7⟩))) raidState).gameOver = true ∧
        (onPointer (PointerInfo.pick (some (Mesh.other ⟨1, -7⟩))) raidState).turnIndicator
          = "Checkmate! black wins!") ∧
      ((applyMoveWith neverMate raider ⟨1, -7⟩ raidState).currentTurn = Color.black ∧
        (applyMoveWith neverMate raider ⟨1, -7⟩ raidState).gameOver = false ∧
        (applyMoveWith neverMate raider ⟨1, -7⟩ raidState).turnIndicator
          = "White king is in check!") :=
  have hreal := legal_move_outcome checkForCheckmate raidState raider (Mesh.other ⟨1, -7⟩)
    (by decide) (by decide) (by decide) (by decide)
  have hstub := legal_move_outcome neverMate raidState raider (Mesh.other ⟨1, -7⟩)
    (by decide) (by decide) (by decide) (by decide)
  have hc := hreal.2.2.2.2.2 whiteKing (by decide) (by decide) (by decide)
  have hb := hstub.2.2.2.2.1 whiteKing (by decide) (by decide) (by decide)
  ⟨by decide, by decide, by decide, by decide,
    ⟨hreal.1 ▸ hreal.2.1, hreal.1 ▸ hc.1, hreal.1 ▸ hc.2.1, hreal.1 ▸ hc.2.2.2 (by decide)⟩,
    ⟨hb.1, hb.2.1, hb.2.2⟩⟩

/-- C4 as first stated fails at `boxedState`: the state is not game-over, the black
queen `boxRaider` is selected and the square of the white king is in `validMoves`;
after the move the white king is the opposing king, it is in check and checkmated
(`checkForCheckmate` is true and every square around it is occupied), and the
indicator reads `Checkmate! white wins!`: it names the turn owner, white, and not the
mover, black. -/
theorem legal_move_names_turn_owner_not_mover :
    boxedState.gameOver = false ∧ boxedState.selectedPiece = some boxRaider ∧
      (Mesh.other ⟨1, 1⟩).isPieceOf boxedState.pieces = false ∧
      (Mesh.other ⟨1, 1⟩).position ∈ boxedState.validMoves ∧
      findOpposingKing boxRaider (assignPosition boxedState.pieces boxRaider.id ⟨1, 1⟩)
        = some boxedKing ∧
      checkForCheck boxedKing (assignPosition boxedState.pieces boxRaider.id ⟨1, 1⟩) = true ∧
      (checkForCheckmate boxedKing
        (assignPosition boxedState.pieces boxRaider.id ⟨1, 1⟩)).result = true ∧
      (∀ o ∈ loopOffsets, o.1 ≠ 0 ∨ o.2 ≠ 0 →
        isTileOccupied (assignPosition boxedState.pieces boxRaider.id ⟨1, 1⟩)
          (boxedKing.position.x + 2 * o.1) (boxedKing.position.z + 2 * o.2) = true) ∧
      boxRaider.metadata.color = Color.black ∧ boxedState.currentTurn = Color.white ∧
      (onPointer (PointerInfo.pick (some (Mesh.other ⟨1, 1⟩))) boxedState).gameOver = true ∧
      (onPointer (PointerInfo.pick (some (Mesh.other ⟨1, 1⟩))) boxedState).turnIndicator
        = "Checkmate! white wins!" ∧
      (onPointer (PointerInfo.pick (some (Mesh.other ⟨1, 1⟩))) boxedState).turnIndicator
        ≠ "Checkmate! " ++ boxRaider.metadata.color.name ++ " wins!" := by
  decide

/-- C5, evaluated: the white king stands in the piece list and is in check (a black
queen is on its square); the neighbouring square `(1.5, -3.5)` is the square of no
piece and the king would not be in check there; `checkForCheckmate` still returns
true, because the hypothetically moved king is itself found by `isTileOccupied`. -/
theorem checkForCheckmate_misses_escape :
    whiteKing ∈ [whiteKing, blackQueen] ∧
      checkForCheck whiteKing [whiteKing, blackQueen] = true ∧
      isTileOccupied [whiteKing, blackQueen] (whiteKing.position.x + 2 * 1)
        (whiteKing.position.z + 2 * 0) = false ∧
      checkForCheck { whiteKing with position := ⟨3, -7⟩ }
        (assignPosition [whiteKing, blackQueen] whiteKing.id ⟨3, -7⟩) = false ∧
      (checkForCheckmate whiteKing [whiteKing, blackQueen]).result = true := by
  decide

/-- C6: if `checkForCheck(king, pieces)` is false then `checkForCheckmate(king, pieces)`
returns false. -/
theorem checkForCheckmate_false_of_not_check (king : Piece) (pieces : List Piece)
    (h : checkForCheck king pieces = false) : (checkForCheckmate king pieces).result = false := by
  unfold checkForCheckmate
  simp only [h, if_true]

/-- C6 for a white king alone on the board. -/
theorem checkForCheckmate_false_of_not_check_witness :
    checkForCheck whiteKing [whiteKing] = false ∧
      (checkForCheckmate whiteKing [whiteKing]).result = false :=
  ⟨by decide, checkForCheckmate_false_of_not_check whiteKing [whiteKing] (by decide)⟩

/-- C7: when every entry of the piece list that is the king object shows the king's
position (in JavaScript an entry with the king's reference is the king), then after
`checkForCheckmate(king, pieces)` has returned, on whichever branch, the king is as
it was before the call, position included, and the piece list is unchanged: every
piece has its position, type and colour of before. -/
theorem checkForCheckmate_restores (king : Piece) (pieces : List Piece)
    (h : ∀ p ∈ pieces, p.id = king.id → p.position = king.position) :
    (checkForCheckmate king pieces).king = king ∧
      (checkForCheckmate king pieces).pieces = pieces :=
  checkForCheckmate_restores_aux king pieces h

/-- C7 for a king in check, where the escape search runs through all eight squares. -/
theorem checkForCheckmate_restores_witness :
    (∀ p ∈ [whiteKing, blackQueen], p.id = whiteKing.id → p.position = whiteKing.position) ∧
      (checkForCheckmate whiteKing [whiteKing, blackQueen]).king = whiteKing ∧
      (checkForCheckmate whiteKing [whiteKing, blackQueen]).pieces = [whiteKing, blackQueen] :=
  ⟨by decide, checkForCheckmate_restores whiteKing [whiteKing, blackQueen] (by decide)⟩

/-- C8: `selectPiece(piece)` with a piece whose colour is not the turn owner leaves
the whole game state unchanged: pieces, turn owner, `gameOver`, selected piece,
`validMoves` and indicator. -/
theorem selectPiece_wrong_colour (piece : Piece) (s : GameState)
    (h : piece.metadata.color ≠ s.currentTurn) : selectPiece piece s = s := by
  unfold selectPiece
  rw [if_neg]
  rintro ⟨_, ⟨h1, h2⟩ | ⟨h1, h2⟩⟩
  · exact h (h1.trans h2.symm)
  · exact h (h1.trans h2.symm)

/-- C8 for a black pawn while a white knight is selected on white's turn. -/
theorem selectPiece_wrong_colour_witness :
    startBlackPawn.metadata.color ≠ knightSelected.currentTurn ∧
      selectPiece startBlackPawn knightSelected = knightSelected :=
  ⟨by decide, selectPiece_wrong_colour startBlackPawn knightSelected (by decide)⟩

/-- C9: in a state that is not game-over and has a selected piece, a pick of a mesh
that is not a piece and whose square is not in `validMoves` leaves the piece list,
the turn owner and `gameOver` unchanged and clears the selection and `validMoves`. -/
theorem illegal_target_only_deselects (s : GameState) (selected : Piece) (pickedMesh : Mesh)
    (hg : s.gameOver = false) (hs : s.selectedPiece = some selected)
    (hm : pickedMesh.isPieceOf s.pieces = false) (ht : pickedMesh.position ∉ s.validMoves) :
    (onPointer (PointerInfo.pick (some pickedMesh)) s).pieces = s.pieces ∧
      (onPointer (PointerInfo.pick (some pickedMesh)) s).currentTurn = s.currentTurn ∧
      (onPointer (PointerInfo.pick (some pickedMesh)) s).gameOver = s.gameOver ∧
      (onPointer (PointerInfo.pick (some pickedMesh)) s).selectedPiece = none ∧
      (onPointer (PointerInfo.pick (some pickedMesh)) s).validMoves = [] := by
  rw [onPointer_illegal_target s selected pickedMesh hg hs hm ht]
  exact ⟨rfl, rfl, rfl, rfl, rfl⟩

/-- C9 with the knight selected and a pick of the tile on `(0.5, 0.5)`. -/
theorem illegal_target_only_deselects_witness :
    knightSelected.gameOver = false ∧ knightSelected.selectedPiece = some startKnight ∧
      (Mesh.other ⟨1, 1⟩).isPieceOf knightSelected.pieces = false ∧
      (Mesh.other ⟨1, 1⟩).position ∉ knightSelected.validMoves ∧
      (onPointer (PointerInfo.pick (some (Mesh.other ⟨1, 1⟩))) knightSelected).pieces
        = knightSelected.pieces ∧
      (onPointer (PointerInfo.pick (some (Mesh.other ⟨1, 1⟩))) knightSelected).currentTurn
        = knightSelected.currentTurn ∧
      (onPointer (PointerInfo.pick (some (Mesh.other ⟨1, 1⟩))) knightSelected).gameOver
        = knightSelected.gameOver ∧
      (onPointer (PointerInfo.pick (some (Mesh.other ⟨1, 1⟩))) knightSelected).selectedPiece
        = none ∧
      (onPointer (PointerInfo.pick (some (Mesh.other ⟨1, 1⟩))) knightSelected).validMoves = [] :=
  ⟨by decide, by decide, by decide, by decide,
    illegal_target_only_deselects knightSelected startKnight (Mesh.other ⟨1, 1⟩)
      (by decide) (by decide) (by decide) (by decide)⟩

/-- C10: in a state where `gameOver` is true every pointer event, whatever was picked,
leaves the whole game state unchanged; the only event after which `gameOver` is false
is the click on the reset button, and it sets `gameOver` to false and the turn owner
to white. -/
theorem gameOver_only_left_by_reset (s : GameState) (hg : s.gameOver = true) :
    (∀ pointerInfo, onPointer pointerInfo s = s) ∧
      (∀ e, (step s e).gameOver = false → e = Event.resetClick) ∧
      (reset s).gameOver = false ∧ (reset s).currentTurn = Color.white := by
  have hp : ∀ pointerInfo, onPointer pointerInfo s = s := by
    intro pointerInfo
    unfold onPointer
    rw [if_pos hg]
  refine ⟨hp, ?_, rfl, rfl⟩
  intro e he
  cases e with
  | pointer pointerInfo =>
    simp only [step, hp pointerInfo, hg] at he
    exact Bool.noConfusion he
  | resetClick => rfl

/-- C10 for the starting layout with `gameOver` set. -/
theorem gameOver_only_left_by_reset_witness :
    ({ initialState with gameOver := true } : GameState).gameOver = true ∧
      ((∀ pointerInfo, onPointer pointerInfo { initialState with gameOver := true } =
          { initialState with gameOver := true }) ∧
        (∀ e, (step { initialState with gameOver := true } e).gameOver = false →
          e = Event.resetClick) ∧
        (reset { initialState with gameOver := true }).gameOver = false ∧
        (reset { initialState with gameOver := true }).currentTurn = Color.white) :=
  ⟨rfl, gameOver_only_left_by_reset { initialState with gameOver := true } rfl⟩

/-- C11: from every game state, reset yields 32 pieces, 16 white and 16 black, each
side with 8 pawns, 2 rooks, 2 knights, 2 bishops, a queen and a king on the squares
of the standard layout (white back rank at `z = -3.5`, white pawns at `z = -2.5`,
black mirrored at `z = 3.5` and `z = 2.5`; rooks on the files `-3.5` and `3.5`,
knights on `-2.5` and `2.5`, bishops on `-1.5` and `1.5`, queen on `-0.5`, king on
`0.5`), with turn owner white, `gameOver` false, no selection and no legal
destinations; a second reset gives the same state again. -/
theorem reset_standard_layout (s : GameState) :
    (reset s).pieces.length = 32 ∧
    ((reset s).pieces.filter fun p => decide (p.metadata.color = Color.white)).length = 16 ∧
    ((reset s).pieces.filter fun p => decide (p.metadata.color = Color.black)).length = 16 ∧
    squaresOf "pawn" Color.white (reset s).pieces =
      [⟨-7, -5⟩, ⟨-5, -5⟩, ⟨-3, -5⟩, ⟨-1, -5⟩, ⟨1, -5⟩, ⟨3, -5⟩, ⟨5, -5⟩, ⟨7, -5⟩] ∧
    squaresOf "pawn" Color.black (reset s).pieces =
      [⟨-7, 5⟩, ⟨-5, 5⟩, ⟨-3, 5⟩, ⟨-1, 5⟩, ⟨1, 5⟩, ⟨3, 5⟩, ⟨5, 5⟩, ⟨7, 5⟩] ∧
    squaresOf "rook" Color.white (reset s).pieces = [⟨-7, -7⟩, ⟨7, -7⟩] ∧
    squaresOf "rook" Color.black (reset s).pieces = [⟨-7, 7⟩, ⟨7, 7⟩] ∧
    squaresOf "knight" Color.white (reset s).pieces = [⟨-5, -7⟩, ⟨5, -7⟩] ∧
    squaresOf "knight" Color.black (reset s).pieces = [⟨-5, 7⟩, ⟨5, 7⟩] ∧
    squaresOf "bishop" Color.white (reset s).pieces = [⟨-3, -7⟩, ⟨3, -7⟩] ∧
    squaresOf "bishop" Color.black (reset s).pieces = [⟨-3, 7⟩, ⟨3, 7⟩] ∧
    squaresOf "queen" Color.white (reset s).pieces = [⟨-1, -7⟩] ∧
    squaresOf "queen" Color.black (reset s).pieces = [⟨-1, 7⟩] ∧
    squaresOf "king" Color.white (reset s).pieces = [⟨1, -7⟩] ∧
    squaresOf "king" Color.black (reset s).pieces = [⟨1, 7⟩] ∧
    (reset s).currentTurn = Color.white ∧ (reset s).gameOver = false ∧
    (reset s).selectedPiece = none ∧ (reset s).validMoves = [] ∧
    reset (reset s) = reset s := by
  rw [reset_eq_initialState s]
  decide

/-- C12: in a state that is not game-over, whose piece list holds distinct objects
and whose selected piece is one of them, a pick of a mesh that is not a piece and
whose square is in `validMoves` leaves the piece list of before with the square of
the selected piece replaced by the target: the list has the same length, no piece is
removed, and every other piece keeps its type, colour and square (the selected piece
keeps its type and colour). -/
theorem legal_move_relocates_only_selected (s : GameState) (selected : Piece)
    (pickedMesh : Mesh) (hg : s.gameOver = false) (hs : s.selectedPiece = some selected)
    (hm : pickedMesh.isPieceOf s.pieces = false) (ht : pickedMesh.position ∈ s.validMoves)
    (hd : DistinctIds s.pieces) (hsel : selected ∈ s.pieces) :
    (onPointer (PointerInfo.pick (some pickedMesh)) s).pieces =
        (s.pieces.map fun p =>
          if p = selected then { p with position := pickedMesh.position } else p) ∧
      (onPointer (PointerInfo.pick (some pickedMesh)) s).pieces.length = s.pieces.length := by
  have h : (onPointer (PointerInfo.pick (some pickedMesh)) s).pieces =
      (s.pieces.map fun p =>
        if p = selected then { p with position := pickedMesh.position } else p) := by
    rw [onPointer_legal_target s selected pickedMesh hg hs hm ht,
      applyMove_pieces selected pickedMesh.position s hd,
      assignPosition_eq_map_of_mem s.pieces hd selected hsel]
  exact ⟨h, by rw [h, List.length_map]⟩

/-- C12 at the first move of a game: only the knight changes its square. -/
theorem legal_move_relocates_only_selected_witness :
    knightSelected.gameOver = false ∧ knightSelected.selectedPiece = some startKnight ∧
      (Mesh.other ⟨-3, -3⟩).isPieceOf knightSelected.pieces = false ∧
      (Mesh.other ⟨-3, -3⟩).position ∈ knightSelected.validMoves ∧
      DistinctIds knightSelected.pieces ∧ startKnight ∈ knightSelected.pieces ∧
      (onPointer (PointerInfo.pick (some (Mesh.other ⟨-3, -3⟩))) knightSelected).pieces =
        (knightSelected.pieces.map fun p =>
          if p = startKnight then { p with position := (Mesh.other ⟨-3, -3⟩).position }
          else p) ∧
      (onPointer (PointerInfo.pick (some (Mesh.other ⟨-3, -3⟩))) knightSelected).pieces.length =
        knightSelected.pieces.length :=
  ⟨by decide, by decide, by decide, by decide, by unfold DistinctIds; decide, by decide,
    legal_move_relocates_only_selected knightSelected startKnight (Mesh.other ⟨-3, -3⟩)
      (by decide) (by decide) (by decide) (by decide) (by unfold DistinctIds; decide)
      (by decide)⟩

/-- C13: for a knight on `(x, z)` and any piece list, `getValidMoves` returns at most 8
destinations, and a square is returned if and only if it is `(x + a, z + b)` for an
offset `(a, b)` with `|a| = 2, |b| = 1` or `|a| = 1, |b| = 2` and is on the board and
unoccupied; nothing else, such as a piece standing in between, decides it. -/
theorem knight_moves_characterised (piece : Piece) (pieces : List Piece) (bs : Nat)
    (h : piece.metadata.type = "knight") :
    (getValidMoves piece pieces bs).length ≤ 8 ∧
      ∀ v : Vector3, v ∈ getValidMoves piece pieces bs ↔
        ∃ a b : Int, ((a.natAbs = 2 ∧ b.natAbs = 1) ∨ (a.natAbs = 1 ∧ b.natAbs = 2)) ∧
          v = ⟨piece.position.x + 2 * a, piece.position.z + 2 * b⟩ ∧ onBoard v.x v.z ∧
          isTileOccupied pieces v.x v.z = false := by
  rw [getValidMoves_knight piece pieces bs h]
  refine ⟨?_, fun v => mem_knight_moves_iff pieces piece.position v⟩
  exact flatMap_length_le _ (fun o => stepMove_length_le pieces _ _) knightOffsets

/-- C13 for a knight in the middle of an otherwise empty board. -/
theorem knight_moves_characterised_witness :
    centreKnight.metadata.type = "knight" ∧
      ((getValidMoves centreKnight [centreKnight] boardSize).length ≤ 8 ∧
        ∀ v : Vector3, v ∈ getValidMoves centreKnight [centreKnight] boardSize ↔
          ∃ a b : Int, ((a.natAbs = 2 ∧ b.natAbs = 1) ∨ (a.natAbs = 1 ∧ b.natAbs = 2)) ∧
            v = ⟨centreKnight.position.x + 2 * a, centreKnight.position.z + 2 * b⟩ ∧
            onBoard v.x v.z ∧ isTileOccupied [centreKnight] v.x v.z = false) :=
  ⟨by decide, knight_moves_characterised centreKnight [centreKnight] boardSize (by decide)⟩

/-- C14: for a king on `(x, z)` and any piece list, `getValidMoves` returns at most 8
destinations, and a square is returned if and only if it is `(x + dx, z + dz)` with
`dx` and `dz` in `{-1, 0, 1}`, not both zero, and is on the board and unoccupied; the
square of the king itself is never returned. -/
theorem king_moves_characterised (piece : Piece) (pieces : List Piece) (bs : Nat)
    (h : piece.metadata.type = "king") :
    (getValidMoves piece pieces bs).length ≤ 8 ∧
      (∀ v : Vector3, v ∈ getValidMoves piece pieces bs ↔
        ∃ dx dz : Int, (dx = -1 ∨ dx = 0 ∨ dx = 1) ∧ (dz = -1 ∨ dz = 0 ∨ dz = 1) ∧
          (dx ≠ 0 ∨ dz ≠ 0) ∧ v = ⟨piece.position.x + 2 * dx, piece.position.z + 2 * dz⟩ ∧
          onBoard v.x v.z ∧ isTileOccupied pieces v.x v.z = false) ∧
      piece.position ∉ getValidMoves piece pieces bs := by
  refine ⟨?_, ?_, ?_⟩
  · rw [getValidMoves_king piece pieces bs h]
    exact king_moves_length_le pieces piece.position
  · rw [getValidMoves_king piece pieces bs h]
    exact fun v => mem_king_moves_iff pieces piece.position v
  · intro hmem
    exact (getValidMoves_sound_aux piece pieces bs piece.position hmem).2.2 rfl

/-- C14 for a king in a corner of an otherwise empty board. -/
theorem king_moves_characterised_witness :
    cornerKing.metadata.type = "king" ∧
      ((getValidMoves cornerKing [cornerKing] boardSize).length ≤ 8 ∧
        (∀ v : Vector3, v ∈ getValidMoves cornerKing [cornerKing] boardSize ↔
          ∃ dx dz : Int, (dx = -1 ∨ dx = 0 ∨ dx = 1) ∧ (dz = -1 ∨ dz = 0 ∨ dz = 1) ∧
            (dx ≠ 0 ∨ dz ≠ 0) ∧
            v = ⟨cornerKing.position.x + 2 * dx, cornerKing.position.z + 2 * dz⟩ ∧
            onBoard v.x v.z ∧ isTileOccupied [cornerKing] v.x v.z = false) ∧
        cornerKing.position ∉ getValidMoves cornerKing [cornerKing] boardSize) :=
  ⟨by decide, king_moves_characterised cornerKing [cornerKing] boardSize (by decide)⟩

/-- C15: for a pawn on a board square `(x, z)` and any piece list, `getValidMoves`
returns at most one destination: for a white pawn exactly `[(x, z - 1)]` when
`z - 1 ≥ -3.5` and `(x, z - 1)` is unoccupied, for a black pawn exactly `[(x, z + 1)]`
when `z + 1 ≤ 3.5` and `(x, z + 1)` is unoccupied, and the empty list otherwise; so
never a square two steps ahead or on another file. -/
theorem pawn_moves_exact (piece : Piece) (pieces : List Piece) (bs : Nat)
    (h : piece.metadata.type = "pawn") (hb : onBoard piece.position.x piece.position.z) :
    getValidMoves piece pieces bs =
        (if piece.metadata.color = Color.white then
          (if piece.position.z - 2 ≥ -7 ∧
              isTileOccupied pieces piece.position.x (piece.position.z - 2) = false then
            [⟨piece.position.x, piece.position.z - 2⟩]
          else [])
        else
          (if piece.position.z + 2 ≤ 7 ∧
              isTileOccupied pieces piece.position.x (piece.position.z + 2) = false then
            [⟨piece.position.x, piece.position.z + 2⟩]
          else [])) ∧
      (getValidMoves piece pieces bs).length ≤ 1 := by
  have heq : getValidMoves piece pieces bs =
      (if piece.metadata.color = Color.white then
        (if piece.position.z - 2 ≥ -7 ∧
            isTileOccupied pieces piece.position.x (piece.position.z - 2) = false then
          [⟨piece.position.x, piece.position.z - 2⟩]
        else [])
      else
        (if piece.position.z + 2 ≤ 7 ∧
            isTileOccupied pieces piece.position.x (piece.position.z + 2) = false then
          [⟨piece.position.x, piece.position.z + 2⟩]
        else [])) := by
    rw [getValidMoves_pawn piece pieces bs h]
    unfold onBoard at hb
    by_cases hc : piece.metadata.color = Color.white
    · simp only [hc, if_true]
      have e : piece.position.z + 2 * -1 = piece.position.z - 2 := by omega
      rw [e]
      by_cases hf : isTileOccupied pieces piece.position.x (piece.position.z - 2) = false
      · by_cases hz : piece.position.z - 2 ≥ -7
        · rw [if_pos ⟨hz, by omega, hf⟩, if_pos ⟨hz, hf⟩]
        · rw [if_neg (fun hh => hz hh.1), if_neg (fun hh => hz hh.1)]
      · rw [if_neg (fun hh => hf hh.2.2), if_neg (fun hh => hf hh.2)]
    · simp only [hc, if_false]
      have e : piece.position.z + 2 * 1 = piece.position.z + 2 := by omega
      rw [e]
      by_cases hf : isTileOccupied pieces piece.position.x (piece.position.z + 2) = false
      · by_cases hz : piece.position.z + 2 ≤ 7
        · rw [if_pos ⟨by omega, hz, hf⟩, if_pos ⟨hz, hf⟩]
        · rw [if_neg (fun hh => hz hh.2.1), if_neg (fun hh => hz hh.1)]
      · rw [if_neg (fun hh => hf hh.2.2), if_neg (fun hh => hf hh.2)]
  refine ⟨heq, ?_⟩
  rw [heq]
  split_ifs <;> simp

/-- C15 for a white pawn of the starting layout, alone on the board: it steps towards
its own back rank. -/
theorem pawn_moves_exact_witness :
    startWhitePawn.metadata.type = "pawn" ∧
      onBoard startWhitePawn.position.x startWhitePawn.position.z ∧
      getValidMoves startWhitePawn [startWhitePawn] boardSize =
        (if startWhitePawn.metadata.color = Color.white then
          (if startWhitePawn.position.z - 2 ≥ -7 ∧
              isTileOccupied [startWhitePawn] startWhitePawn.position.x
                (startWhitePawn.position.z - 2) = false then
            [⟨startWhitePawn.position.x, startWhitePawn.position.z - 2⟩]
          else [])
        else
          (if startWhitePawn.position.z + 2 ≤ 7 ∧
              isTileOccupied [startWhitePawn] startWhitePawn.position.x
                (startWhitePawn.position.z + 2) = false then
            [⟨startWhitePawn.position.x, startWhitePawn.position.z + 2⟩]
          else [])) ∧
      (getValidMoves startWhitePawn [startWhitePawn] boardSize).length ≤ 1 :=
  ⟨by decide, by decide,
    pawn_moves_exact startWhitePawn [startWhitePawn] boardSize (by decide) (by decide)⟩

/-- C16: for a queen and any piece list, the result of `getValidMoves` is the result
for a rook followed by the result for a bishop, both made from the queen's square and
colour (the two objects are fresh, whatever their references) and computed against
the same piece list; a square is a queen destination exactly when it is a rook
destination or a bishop destination. -/
theorem queen_moves_rook_then_bishop (piece : Piece) (pieces : List Piece) (bs : Nat)
    (rookId bishopId : Nat) (h : piece.metadata.type = "queen") :
    getValidMoves piece pieces bs =
        getValidMoves ⟨rookId, ⟨"rook", piece.metadata.color⟩, piece.position⟩ pieces bs ++
          getValidMoves ⟨bishopId, ⟨"bishop", piece.metadata.color⟩, piece.position⟩ pieces bs ∧
      ∀ v : Vector3, v ∈ getValidMoves piece pieces bs ↔
        v ∈ getValidMoves ⟨rookId, ⟨"rook", piece.metadata.color⟩, piece.position⟩ pieces bs ∨
          v ∈ getValidMoves ⟨bishopId, ⟨"bishop", piece.metadata.color⟩, piece.position⟩
            pieces bs := by
  have heq : getValidMoves piece pieces bs =
      getValidMoves ⟨rookId, ⟨"rook", piece.metadata.color⟩, piece.position⟩ pieces bs ++
        getValidMoves ⟨bishopId, ⟨"bishop", piece.metadata.color⟩, piece.position⟩ pieces bs := by
    rw [getValidMoves_queen piece pieces bs h, getValidMoves_rook _ pieces bs rfl,
      getValidMoves_bishop _ pieces bs rfl]
  refine ⟨heq, ?_⟩
  intro v
  rw [heq, List.mem_append]

/-- C16 for a queen in the middle of the board with a pawn on its file. -/
theorem queen_moves_rook_then_bishop_witness :
    centreQueen.metadata.type = "queen" ∧
      (getValidMoves centreQueen [centreQueen, filePawn] boardSize =
          getValidMoves ⟨7, ⟨"rook", centreQueen.metadata.color⟩, centreQueen.position⟩
              [centreQueen, filePawn] boardSize ++
            getValidMoves ⟨8, ⟨"bishop", centreQueen.metadata.color⟩, centreQueen.position⟩
              [centreQueen, filePawn] boardSize ∧
        ∀ v : Vector3, v ∈ getValidMoves centreQueen [centreQueen, filePawn] boardSize ↔
          v ∈ getValidMoves ⟨7, ⟨"rook", centreQueen.metadata.color⟩, centreQueen.position⟩
              [centreQueen, filePawn] boardSize ∨
            v ∈ getValidMoves ⟨8, ⟨"bishop", centreQueen.metadata.color⟩, centreQueen.position⟩
              [centreQueen, filePawn] boardSize) :=
  ⟨by decide,
    queen_moves_rook_then_bishop centreQueen [centreQueen, filePawn] boardSize 7 8 (by decide)⟩

/-- C17: for a rook on a corner square and any piece list in which no other piece
stands on the rook's rank or file, `getValidMoves` (with the board size 8 of the
game) returns exactly 14 destinations, each once: the board squares other than its
own that share its file or its rank. -/
theorem corner_rook_fourteen_moves (piece : Piece) (pieces : List Piece)
    (ht : piece.metadata.type = "rook")
    (hx : piece.position.x = -7 ∨ piece.position.x = 7)
    (hz : piece.position.z = -7 ∨ piece.position.z = 7)
    (hfree : ∀ p ∈ pieces, p ≠ piece →
      p.position.x ≠ piece.position.x ∧ p.position.z ≠ piece.position.z) :
    (getValidMoves piece pieces boardSize).length = 14 ∧
      (getValidMoves piece pieces boardSize).Nodup ∧
      ∀ v : Vector3, v ∈ getValidMoves piece pieces boardSize ↔
        isSquare v ∧ v ≠ piece.position ∧
          (v.x = piece.position.x ∨ v.z = piece.position.z) := by
  rw [getValidMoves_rook piece pieces boardSize ht,
    rook_moves_of_clear_lines piece pieces boardSize hfree]
  exact corner_rook_moves piece.position hx hz

/-- C17 for the white rook on `(-3.5, -3.5)` with a queen away from its rank and file. -/
theorem corner_rook_fourteen_moves_witness :
    cornerRook.metadata.type = "rook" ∧
      (cornerRook.position.x = -7 ∨ cornerRook.position.x = 7) ∧
      (cornerRook.position.z = -7 ∨ cornerRook.position.z = 7) ∧
      (∀ p ∈ [cornerRook, centreQueen], p ≠ cornerRook →
        p.position.x ≠ cornerRook.position.x ∧ p.position.z ≠ cornerRook.position.z) ∧
      (getValidMoves cornerRook [cornerRook, centreQueen] boardSize).length
        = 14 :=
  ⟨by decide, by decide, by decide, by decide,
    (corner_rook_fourteen_moves cornerRook [cornerRook, centreQueen]
      (by decide) (by decide) (by decide) (by decide)).1⟩

/-- C18: for a piece whose type tag is none of pawn, rook, knight, bishop, queen and
king, and any piece list, `getValidMoves` reports the error `Invalid piece type` with
the tag and returns the empty list; selecting such a piece (one of the piece list, on
its colour's turn) leaves the game with that piece selected and an empty
legal-destination set. -/
theorem unknown_type_has_no_moves (piece : Piece) (pieces : List Piece) (bs : Nat)
    (h1 : piece.metadata.type ≠ "pawn") (h2 : piece.metadata.type ≠ "rook")
    (h3 : piece.metadata.type ≠ "knight") (h4 : piece.metadata.type ≠ "bishop")
    (h5 : piece.metadata.type ≠ "queen") (h6 : piece.metadata.type ≠ "king") :
    getValidMoves piece pieces bs = [] ∧
      getValidMovesErrors piece = ["Invalid piece type: " ++ piece.metadata.type] ∧
      ∀ s : GameState, piece ∈ s.pieces → piece.metadata.color = s.currentTurn →
        (selectPiece piece s).selectedPiece = some piece ∧
          (selectPiece piece s).validMoves = [] := by
  refine ⟨getValidMoves_default piece pieces bs h1 h2 h3 h4 h5 h6, ?_, ?_⟩
  · unfold getValidMovesErrors
    simp only [h1, h2, h3, h4, h5, h6, if_false]
  · intro s hmem hcol
    have hcond : piece ∈ s.pieces ∧
        ((piece.metadata.color = Color.white ∧ s.currentTurn = Color.white) ∨
          (piece.metadata.color = Color.black ∧ s.currentTurn = Color.black)) := by
      refine ⟨hmem, ?_⟩
      rw [← hcol]
      cases piece.metadata.color
      · exact Or.inl ⟨rfl, rfl⟩
      · exact Or.inr ⟨rfl, rfl⟩
    unfold selectPiece
    rw [if_pos hcond]
    exact ⟨rfl, getValidMoves_default piece _ boardSize h1 h2 h3 h4 h5 h6⟩

/-- C18 for a piece tagged `wizard` put on the starting board. -/
theorem unknown_type_has_no_moves_witness :
    strangePiece.metadata.type ≠ "pawn" ∧ strangePiece.metadata.type ≠ "rook" ∧
      strangePiece.metadata.type ≠ "knight" ∧ strangePiece.metadata.type ≠ "bishop" ∧
      strangePiece.metadata.type ≠ "queen" ∧ strangePiece.metadata.type ≠ "king" ∧
      getValidMoves strangePiece (strangePiece :: createPieces) boardSize = [] ∧
      getValidMovesErrors strangePiece = ["Invalid piece type: wizard"] :=
  have h := unknown_type_has_no_moves strangePiece (strangePiece :: createPieces) boardSize
    (by decide) (by decide) (by decide) (by decide) (by decide) (by decide)
  ⟨by decide, by decide, by decide, by decide, by decide, by decide, h.1, h.2.1⟩

/-- C19: for every piece list and every king that is a member of it,
`checkForCheckmate(king, pieces)` returns what `checkForCheck(king, pieces)` returns:
in the escape search the moved king itself makes `isTileOccupied` true for each of the
8 squares, so every check is reported as checkmate. Consequently no move, in any
state, ends with the message that a king is in check. -/
theorem checkForCheckmate_eq_checkForCheck (king : Piece) (pieces : List Piece)
    (hk : king ∈ pieces) :
    (checkForCheckmate king pieces).result = checkForCheck king pieces ∧
      (∀ a : Vector3, isTileOccupied (assignPosition pieces king.id a) a.x a.z = true) ∧
      ∀ (selected : Piece) (target : Vector3) (s : GameState),
        (applyMove selected target s).turnIndicator ≠ "Black king is in check!" ∧
          (applyMove selected target s).turnIndicator ≠ "White king is in check!" :=
  ⟨checkForCheckmate_result_of_mem king pieces hk,
    fun a => isTileOccupied_assignPosition_self pieces king hk a,
    fun selected target s => applyMove_never_check_message selected target s⟩

/-- C19 for the white king with a black queen on its square. -/
theorem checkForCheckmate_eq_checkForCheck_witness :
    whiteKing ∈ [whiteKing, blackQueen] ∧
      (checkForCheckmate whiteKing [whiteKing, blackQueen]).result =
        checkForCheck whiteKing [whiteKing, blackQueen] :=
  ⟨by decide, (checkForCheckmate_eq_checkForCheck whiteKing [whiteKing, blackQueen]
    (by decide)).1⟩

/-- C20: with check read as a piece of the other colour standing on the king's square,
in every state reachable from a reset by pointer events and further resets `gameOver`
is false and no piece of the list, so neither king, is in check; and every move the
handler applies there (a pick, with a piece selected, of a mesh that is not a piece
and whose square is in `validMoves`) flips the turn owner and leaves `gameOver`
false. -/
theorem reachable_never_check_or_gameOver (s : GameState) (h : Reachable s) :
    s.gameOver = false ∧
      (∀ king ∈ s.pieces, checkForCheck king s.pieces = false) ∧
      ∀ (selected : Piece) (pickedMesh : Mesh), s.selectedPiece = some selected →
        pickedMesh.isPieceOf s.pieces = false → pickedMesh.position ∈ s.validMoves →
        (onPointer (PointerInfo.pick (some pickedMesh)) s).currentTurn =
            (if s.currentTurn = Color.white then Color.black else Color.white) ∧
          (onPointer (PointerInfo.pick (some pickedMesh)) s).gameOver = false := by
  have hinv := inv_of_reachable s h
  have hg := gameOver_false_of_reachable s h
  refine ⟨hg, fun king hk => checkForCheck_false_of_wellPlaced s.pieces hinv.1 king hk, ?_⟩
  intro selected pickedMesh hs hm ht
  rw [onPointer_legal_target s selected pickedMesh hg hs hm ht,
    applyMove_of_wellPlaced selected pickedMesh.position s
      (wellPlaced_after_legal_target s hinv selected pickedMesh.position ht)]
  exact ⟨rfl, hg⟩

/-- C20 for the game with the first knight selected: the move to `(-1.5, -1.5)`
passes the turn to black. -/
theorem reachable_never_check_or_gameOver_witness :
    Reachable knightSelected ∧ knightSelected.gameOver = false ∧
      (∀ king ∈ knightSelected.pieces, checkForCheck king knightSelected.pieces = false) ∧
      (onPointer (PointerInfo.pick (some (Mesh.other ⟨-3, -3⟩))) knightSelected).currentTurn =
        Color.black :=
  have h := reachable_never_check_or_gameOver knightSelected
    (Reachable.afterEvent _ _ (Reachable.afterReset initialState))
  ⟨Reachable.afterEvent _ _ (Reachable.afterReset initialState), h.1, h.2.1,
    (h.2.2 startKnight (Mesh.other ⟨-3, -3⟩) (by decide) (by decide) (by decide)).1⟩

/-- C21: in the starting layout that reset produces, `getValidMoves` (with the board
size 8 of the game) returns the empty list for every pawn, rook, bishop, queen and
king of both colours, the square ahead of each pawn being occupied by a piece of its
own back rank, and exactly 2 destinations for each of the four knights; so white, the
side to move, has exactly 4 legal moves in all, each of them a knight move. -/
theorem starting_layout_only_knights_move (s : GameState) :
    (∀ p ∈ (reset s).pieces, p.metadata.type ≠ "knight" →
      getValidMoves p (reset s).pieces boardSize = []) ∧
    (∀ p ∈ (reset s).pieces, p.metadata.type = "pawn" →
      isTileOccupied (reset s).pieces p.position.x
        (p.position.z + 2 * (if p.metadata.color = Color.white then -1 else 1)) = true ∧
      (p.position.z + 2 * (if p.metadata.color = Color.white then -1 else 1) =
        if p.metadata.color = Color.white then -7 else 7)) ∧
    (∀ p ∈ (reset s).pieces, p.metadata.type = "knight" →
      (getValidMoves p (reset s).pieces boardSize).length = 2) ∧
    ((reset s).pieces.filter fun p => decide (p.metadata.type = "knight")).length = 4 ∧
    (((reset s).pieces.filter fun p => decide (p.metadata.color = (reset s).currentTurn)).flatMap
      fun p => getValidMoves p (reset s).pieces boardSize).length = 4 ∧
    (((reset s).pieces.filter fun p => decide (p.metadata.color = (reset s).currentTurn)).flatMap
        fun p => (getValidMoves p (reset s).pieces boardSize).map fun v => (p.position, v)) =
      [(⟨-5, -7⟩, ⟨-3, -3⟩), (⟨-5, -7⟩, ⟨-7, -3⟩), (⟨5, -7⟩, ⟨7, -3⟩), (⟨5, -7⟩, ⟨3, -3⟩)] := by
  rw [reset_eq_initialState s]
  decide

end Chess3D
